import Mathlib

/-! jsh (jo-shell): read-eval loop, built-ins, prompt rendering, completion.

A shallow embedding of `jsh.c`.  C strings are lists of characters (the bytes
before the terminating NUL, one `Char` per byte); `int` values are `Int`.
Undefined behaviour is modelled as `none`: pointer arithmetic that leaves the
object it started in, a read through a NULL pointer, and a read of an object
whose lifetime has ended.
-/

namespace Jsh

/-- A C string: the bytes before the terminating NUL. -/
abbrev CStr := List Char

/-! ## Macro constants and global variables -/

def DEFAULT_PROMPT : CStr := "%u@%h[%s]:%d$ ".toList
def MAX_PROMPT_LENGTH : Nat := 100
def MAX_STATUS_LENGTH : Nat := 10
def EXIT_SUCCESS : Int := 0
def EXIT_FAILURE : Int := 1

/-- The global variables of `jsh.c`, together with the function-local static
`prompt_init` of `parse_built_in`. -/
structure Session where
  DEBUG : Bool
  COLOR : Bool
  LOAD_RC : Bool
  WAITING_FOR_CHILD : Bool
  I_AM_FORK : Bool
  IS_INTERACTIVE : Bool
  nb_hist_entries : Int
  user_prompt_string : CStr
  MAX_DIR_LENGTH : Int
  prompt_init : Bool
  deriving DecidableEq, Repr

/-- The initial values of the globals (`DEBUG` is true unless `NODEBUG` is
defined; `IS_INTERACTIVE` is set at startup from the terminal check). -/
def Session.initial (interactive : Bool) : Session :=
  { DEBUG := true, COLOR := true, LOAD_RC := true, WAITING_FOR_CHILD := false,
    I_AM_FORK := false, IS_INTERACTIVE := interactive, nb_hist_entries := 0,
    user_prompt_string := DEFAULT_PROMPT, MAX_DIR_LENGTH := 25, prompt_init := true }

/-! ## libc string functions -/

/-- The function `strchr(s, c)` for a non-NUL `c`: the suffix of `s` that starts at the
first occurrence of `c`, or `none` (NULL). -/
def strchr : CStr → Char → Option CStr
  | [], _ => none
  | x :: xs, c => if x = c then some (x :: xs) else strchr xs c

/-- The function `strcmp`: the sign of the comparison of the first pair of bytes
that differ, bytes compared as unsigned values (the terminating NUL is the
smallest byte).  C fixes only the sign of the result; the model returns
-1, 0 or 1. -/
def strcmp : CStr → CStr → Int
  | [], [] => 0
  | [], _ :: _ => -1
  | _ :: _, [] => 1
  | a :: as, b :: bs =>
    if a = b then strcmp as bs else if a.toNat < b.toNat then -1 else 1

/-- The function `strncmp`: as `strcmp`, over at most `n` bytes. -/
def strncmp : CStr → CStr → Nat → Int
  | _, _, 0 => 0
  | [], [], _ + 1 => 0
  | [], _ :: _, _ + 1 => -1
  | _ :: _, [], _ + 1 => 1
  | a :: as, b :: bs, n + 1 =>
    if a = b then strncmp as bs n else if a.toNat < b.toNat then -1 else 1

/-- The function `isspace` in the C locale. -/
def isspace (c : Char) : Bool :=
  c = ' ' || c = '\t' || c = '\n' || c = '\x0b' || c = '\x0c' || c = '\r'

/-- The function `isdigit`. -/
def isdigit (c : Char) : Bool := 48 ≤ c.toNat && c.toNat ≤ 57

/-- The value of the decimal digits at the start of a string, after `acc`. -/
def digits_value : CStr → Nat → Nat
  | [], acc => acc
  | c :: cs, acc => if isdigit c then digits_value cs (10 * acc + (c.toNat - 48)) else acc

def LONG_MAX : Int := 9223372036854775807
def LONG_MIN : Int := -9223372036854775808

/-- The call `strtol(s, NULL, 10)` with a 64-bit `long`: white space, an optional
sign, decimal digits; out-of-range values saturate. -/
def strtol (s : CStr) : Int :=
  match s.dropWhile isspace with
  | [] => 0
  | c :: cs =>
    if c = '-' then max LONG_MIN (-(digits_value cs 0 : Int))
    else if c = '+' then min LONG_MAX (digits_value cs 0 : Int)
    else min LONG_MAX (digits_value (c :: cs) 0 : Int)

/-- Conversion of an integer to a 32-bit two's-complement `int`. -/
def to_int (v : Int) : Int := (v + 2147483648) % 4294967296 - 2147483648

/-- The function `atoi`, which is `(int) strtol(s, NULL, 10)`. -/
def atoi (s : CStr) : Int := to_int (strtol s)

/-- The function `abs` on 32-bit `int`: `i < 0 ? -i : i`, computed in 32 bits. -/
def abs_int (i : Int) : Int := to_int (if i < 0 then -i else i)

/-- Decimal text of an `int`, as `printf("%d")` writes it. -/
def fmt_d (v : Int) : CStr :=
  if v < 0 then '-' :: Nat.toDigits 10 v.natAbs else Nat.toDigits 10 v.natAbs

/-- The call `snprintf(buf, size, "%d", v)`: at most `size - 1` bytes are stored. -/
def snprintf_d (size : Nat) (v : Int) : CStr := (fmt_d v).take (size - 1)

/-- The call `snprintf(buf, size, "%c", c)`. -/
def snprintf_c (size : Nat) (c : Char) : CStr := [c].take (size - 1)

/-! ## getprompt -/

/-- What `getprompt` reads from the process environment: the result of
`getenv("USER")` (NULL when the variable is not set), the name that
`gethostname` stores, and the result of `getcwd(NULL, 0)` (NULL on failure). -/
structure PromptEnv where
  USER : Option CStr
  hostname : CStr
  cwd : Option CStr
  deriving DecidableEq, Repr

/-- The `case 'd'` block of `getprompt`: the text the `%d` directive expands to.
`cwd + k` is defined only for `0 ≤ k ≤ cwdlen`. -/
def prompt_dir (MAX_DIR_LENGTH : Int) (cwd : CStr) : Option CStr :=
  let cwdlen : Int := cwd.length
  let off : Int := if MAX_DIR_LENGTH < cwdlen then cwdlen - MAX_DIR_LENGTH else 0
  if 0 ≤ off ∧ off ≤ cwdlen then
    match strchr (cwd.drop off.toNat) '/' with
    | some ptr => some ptr
    | none =>
      let k : Int := cwdlen - MAX_DIR_LENGTH
      if 0 ≤ k ∧ k ≤ cwdlen then some (cwd.drop k.toNat) else none
  else none

/-- The `switch (user_prompt_string[i])` of `getprompt`: the string that `next`
points to when `strlen(next)` reads it after the `switch`, or `none` when
that read is undefined.

* `case 'u'`: `next` is the result of `getenv`, NULL when `USER` is not set.
* `case 'h'`: `next` is set to the array `hostname`, which is declared inside
  the block of the case; the lifetime of the array ends with the block, before
  `next` is read, whatever name `gethostname` stored in it.
* `case 'd'`: `strlen(cwd)` reads the result of `getcwd`, NULL on failure. -/
def prompt_directive (e : PromptEnv) (MAX_DIR_LENGTH : Int) (status : Int) (c : Char) :
    Option CStr :=
  if c = 'u' then e.USER
  else if c = 'h' then none
  else if c = 's' then some (snprintf_d MAX_STATUS_LENGTH status)
  else if c = 'd' then
    match e.cwd with
    | some cwd => prompt_dir MAX_DIR_LENGTH cwd
    | none => none
  else if c = '%' then some ['%']
  else some []

/-- The expansion the specification gives a directive: the local host name for
`h`, and for every other character the text the code computes. -/
def spec_directive (e : PromptEnv) (MAX_DIR_LENGTH : Int) (status : Int) (c : Char) :
    Option CStr :=
  if c = 'h' then some e.hostname else prompt_directive e MAX_DIR_LENGTH status c

/-- The tail of one iteration of the `for` loop: the length check, then `strcat`.
The flag is `false` when `return prompt` was taken. -/
def prompt_cat (prompt next : CStr) : CStr × Bool :=
  if prompt.length + next.length > MAX_PROMPT_LENGTH then (prompt, false)
  else (prompt ++ next, true)

/-- The `for` loop of `getprompt` over the rest of the template, with the
prompt built so far.  A `%` at the very end of the template reads the
terminating NUL, which selects the `default` case. -/
def getprompt_loop (e : PromptEnv) (MAX_DIR_LENGTH : Int) (status : Int) :
    CStr → CStr → Option CStr
  | [], prompt => some prompt
  | [c], prompt =>
    if c ≠ '%' then some (prompt_cat prompt (snprintf_c MAX_STATUS_LENGTH c)).1
    else some (prompt_cat prompt []).1
  | c :: d :: rest, prompt =>
    if c ≠ '%' then
      match prompt_cat prompt (snprintf_c MAX_STATUS_LENGTH c) with
      | (p, true) => getprompt_loop e MAX_DIR_LENGTH status (d :: rest) p
      | (p, false) => some p
    else
      match prompt_directive e MAX_DIR_LENGTH status d with
      | none => none
      | some next =>
        match prompt_cat prompt next with
        | (p, true) => getprompt_loop e MAX_DIR_LENGTH status rest p
        | (p, false) => some p

/-- The function `getprompt(status)`.  The result is the string built in the
static buffer `prompt`; the capacity of that buffer (`MAX_PROMPT_LENGTH`
bytes, terminator included) is not part of the model. -/
def getprompt (s : Session) (e : PromptEnv) (status : Int) : Option CStr :=
  if !s.IS_INTERACTIVE then some []
  else getprompt_loop e s.MAX_DIR_LENGTH status s.user_prompt_string []

/-- The template that consists of `n` copies of `%%`. -/
def percent_template : Nat → CStr
  | 0 => []
  | n + 1 => '%' :: '%' :: percent_template n

/-- The segments of a template, in the words of the specification: one segment
per literal character and one per `%`-directive, which is the text `expand`
gives for the directive (a `%` that ends the template expands to nothing).
`none` when some directive has no defined expansion. -/
def prompt_segments (expand : Char → Option CStr) : CStr → Option (List CStr)
  | [] => some []
  | [c] => if c = '%' then some [[]] else some [[c]]
  | c :: d :: rest =>
    if c = '%' then
      match expand d, prompt_segments expand rest with
      | some x, some xs => some (x :: xs)
      | _, _ => none
    else
      match prompt_segments expand (d :: rest) with
      | some xs => some ([c] :: xs)
      | none => none

/-! ## The built-in registry -/

/-- The array `built_ins[]`. -/
def built_ins : List CStr :=
  ["".toList, "F".toList, "T".toList, "alias".toList, "cd".toList, "color".toList,
   "debug".toList, "exit".toList, "history".toList, "prompt".toList, "shcat".toList,
   "source".toList, "unalias".toList]

def nb_built_ins : Nat := built_ins.length

/-- The enumeration `enum built_in`. -/
inductive built_in where
  | EMPTY | F | T | ALIAS | CD | CLR | DBG | EXIT | HIST | PROMPT | SHCAT | SRC | UNALIAS
  deriving DecidableEq, Repr

/-- The integer value of an enumerator. -/
def built_in.toInt : built_in → Int
  | EMPTY => 0 | F => 1 | T => 2 | ALIAS => 3 | CD => 4 | CLR => 5 | DBG => 6
  | EXIT => 7 | HIST => 8 | PROMPT => 9 | SHCAT => 10 | SRC => 11 | UNALIAS => 12

/-- The cast `(built_in) index`, when `index` is the value of an enumerator. -/
def built_in.ofInt (index : Int) : Option built_in :=
  if index = 0 then some EMPTY else if index = 1 then some F
  else if index = 2 then some T else if index = 3 then some ALIAS
  else if index = 4 then some CD else if index = 5 then some CLR
  else if index = 6 then some DBG else if index = 7 then some EXIT
  else if index = 8 then some HIST else if index = 9 then some PROMPT
  else if index = 10 then some SHCAT else if index = 11 then some SRC
  else if index = 12 then some UNALIAS else none

/-- The array `widely_used_cmds[]`. -/
def widely_used_cmds : List CStr :=
  ["git".toList, "cat".toList, "grep".toList, "ls".toList, "exit".toList, "sudo".toList,
   "kill".toList, "killall".toList, "links".toList, "find".toList, "clear".toList,
   "chmod".toList, "echo".toList, "make".toList, "poweroff".toList, "reboot".toList,
   "pacman".toList, "aptitude".toList, "apt-cache".toList, "apt-get".toList, "man".toList,
   "nano".toList, "vi".toList, "gcc".toList, "jsh".toList, "zsh".toList, "bash".toList]

/-- A command record `comd`: the argument tokens `cmd`, the first of which is
the command name.  Its field `length` is the number of tokens. -/
structure comd where
  cmd : List CStr
  deriving DecidableEq, Repr

/-- The field `comd->length`. -/
def comd.length (c : comd) : Int := (c.cmd.length : Int)

/-- The token `comd->cmd[i]`. -/
def comd.arg (c : comd) (i : Nat) : CStr := c.cmd.getD i []

/-- Modelled from the spec: `string_cmp` is declared in `jsh-common.h`, which is
not among the sources.  It is the `qsort`/`bsearch` comparator over array
slots of type `char*`: it compares the two strings the slots point to,
byte-wise, as `strcmp` does. -/
def string_cmp (a b : CStr) : Int := strcmp a b

/-- The search loop of `bsearch`: `l` and `u` bound the part of `base` still to
search.  The part shrinks at every iteration, so `fuel ≥ u - l` never runs out. -/
def bsearch_loop (compar : CStr → CStr → Int) (key : CStr) (base : List CStr) :
    Nat → Nat → Nat → Option Nat
  | 0, _, _ => none
  | fuel + 1, l, u =>
    if l < u then
      let idx := (l + u) / 2
      let comparison := compar key (base.getD idx [])
      if comparison < 0 then bsearch_loop compar key base fuel l idx
      else if comparison > 0 then bsearch_loop compar key base fuel (idx + 1) u
      else some idx
    else none

/-- The function `bsearch(key, base, nmemb, size, compar)`: the index of the slot
found, or `none` for NULL. -/
def bsearch (key : CStr) (base : List CStr) (nmemb : Nat)
    (compar : CStr → CStr → Int) : Option Nat :=
  bsearch_loop compar key base nmemb 0 nmemb

/-- The function `is_built_in(comd)`. -/
def is_built_in (c : comd) : Int :=
  match bsearch (c.arg 0) built_ins nb_built_ins string_cmp with
  | none => -1
  | some rv => (rv : Int)

/-! ## parse_built_in -/

/-- How a call ends: it returns a status, leaving the globals in some state, or
the process terminates through `exit`. -/
inductive Outcome where
  | returned (status : Int) (s : Session)
  | exited (code : Int)
  deriving DecidableEq, Repr

/-- The collaborators `parse_built_in` calls: `alias` and `unalias` of the alias
store (`alias.h`), the process environment, and `parsefile` of the parser run with `parseexpr`,
which may change the globals or terminate the process. -/
structure Externals where
  alias_call : CStr → CStr → Int
  unalias_call : CStr → Int
  HOME : Option CStr
  chdir : Option CStr → Int
  parsefile : CStr → Session → Except Int Session

/-- The macro `CHK_ARGC(cmd, argc)`: true when the check fails and the macro
returns `EXIT_FAILURE`. -/
def CHK_ARGC (c : comd) (argc : Int) : Bool := c.length != argc + 1

/-- Modelled from the spec: the macro `CHK_ERR` is defined in `jsh-common.h`,
which is not among the sources.  Per the built-in table a change of
directory that fails gives the failure status: the macro returns
`EXIT_FAILURE` when the system call returned -1. -/
def CHK_ERR (rv : Int) : Bool := rv == -1

/-- The macro `TOGGLE_VAR(name, var, arg)`; `set v` is the assignment `var = v`. -/
def TOGGLE_VAR (set : Bool → Session) (s : Session) (c : comd) (arg : CStr) : Outcome :=
  if CHK_ARGC c 1 then Outcome.returned EXIT_FAILURE s
  else if strcmp arg "on".toList = 0 then Outcome.returned EXIT_SUCCESS (set true)
  else if strcmp arg "off".toList = 0 then Outcome.returned EXIT_SUCCESS (set false)
  else Outcome.returned EXIT_FAILURE s

/-- The function `parse_built_in(comd, index)`.  Output to the terminal is not
modelled. -/
def parse_built_in (x : Externals) (s : Session) (c : comd) (index : Int) : Outcome :=
  match built_in.ofInt index with
  | some built_in.EMPTY => Outcome.returned EXIT_SUCCESS s
  | some built_in.F => Outcome.returned EXIT_FAILURE s
  | some built_in.T => Outcome.returned EXIT_SUCCESS s
  | some built_in.ALIAS =>
    if c.length = 1 then Outcome.returned EXIT_SUCCESS s
    else if CHK_ARGC c 2 then Outcome.returned EXIT_FAILURE s
    else Outcome.returned (x.alias_call (c.arg 1) (c.arg 2)) s
  | some built_in.CD =>
    if c.length = 1 then
      if CHK_ERR (x.chdir x.HOME) then Outcome.returned EXIT_FAILURE s
      else Outcome.returned EXIT_SUCCESS s
    else if CHK_ARGC c 1 then Outcome.returned EXIT_FAILURE s
    else if CHK_ERR (x.chdir (some (c.arg 1))) then Outcome.returned EXIT_FAILURE s
    else Outcome.returned EXIT_SUCCESS s
  | some built_in.CLR => TOGGLE_VAR (fun v => { s with COLOR := v }) s c (c.arg 1)
  | some built_in.DBG => TOGGLE_VAR (fun v => { s with DEBUG := v }) s c (c.arg 1)
  | some built_in.EXIT => Outcome.exited EXIT_SUCCESS
  | some built_in.HIST =>
    if CHK_ARGC c 0 then Outcome.returned EXIT_FAILURE s
    else Outcome.returned EXIT_SUCCESS s
  | some built_in.PROMPT =>
    if c.length = 3 then
      Outcome.returned EXIT_SUCCESS
        { s with MAX_DIR_LENGTH := abs_int (atoi (c.arg 2)), prompt_init := false,
                 user_prompt_string := c.arg 1 }
    else if CHK_ARGC c 1 then Outcome.returned EXIT_FAILURE s
    else Outcome.returned EXIT_SUCCESS
        { s with prompt_init := false, user_prompt_string := c.arg 1 }
  | some built_in.SHCAT => Outcome.returned EXIT_SUCCESS s
  | some built_in.UNALIAS =>
    if CHK_ARGC c 1 then Outcome.returned EXIT_FAILURE s
    else Outcome.returned (x.unalias_call (c.arg 1)) s
  | some built_in.SRC =>
    if CHK_ARGC c 1 then Outcome.returned EXIT_FAILURE s
    else match x.parsefile (c.arg 1) s with
      | Except.ok s1 => Outcome.returned EXIT_SUCCESS s1
      | Except.error code => Outcome.exited code
  | none => Outcome.exited EXIT_FAILURE

/-- The accepted numbers of extra arguments of each built-in, as the
specification declares them (`shcat` ignores its arguments). -/
def accepted_argc : built_in → Int → Bool
  | built_in.EMPTY, n => n = 0
  | built_in.T, n => n = 0
  | built_in.F, n => n = 0
  | built_in.EXIT, n => n = 0
  | built_in.HIST, n => n = 0
  | built_in.ALIAS, n => n = 0 || n = 2
  | built_in.CD, n => n = 0 || n = 1
  | built_in.CLR, n => n = 1
  | built_in.DBG, n => n = 1
  | built_in.SRC, n => n = 1
  | built_in.UNALIAS, n => n = 1
  | built_in.PROMPT, n => n = 1 || n = 2
  | built_in.SHCAT, _ => true

/-- The registry name of each enumerator. -/
def built_in.name : built_in → CStr
  | EMPTY => "".toList | F => "F".toList | T => "T".toList | ALIAS => "alias".toList
  | CD => "cd".toList | CLR => "color".toList | DBG => "debug".toList
  | EXIT => "exit".toList | HIST => "history".toList | PROMPT => "prompt".toList
  | SHCAT => "shcat".toList | SRC => "source".toList | UNALIAS => "unalias".toList

/-- Sample collaborators: every call succeeds, and sourcing a file changes
nothing. -/
def sample_externals : Externals :=
  { alias_call := fun _ _ => 0, unalias_call := fun _ => 0, HOME := some "/home/jo".toList,
    chdir := fun _ => 0, parsefile := fun _ s => Except.ok s }

/-! ## Completion generators -/

/-- The function-local statics `len` and `index` of a completion generator. -/
structure GenState where
  len : Nat
  index : Nat
  deriving DecidableEq, Repr

/-- The `while (index < nb_elements)` loop of `COMPLETION_SKELETON`, over the
slots of the array from `index` on: the string returned (or NULL) and the
new value of `index`. -/
def skeleton_scan (text : CStr) (len : Nat) : List CStr → Nat → Option CStr × Nat
  | [], index => (none, index)
  | a :: rest, index =>
    if strncmp a text len = 0 then (some a, index + 1)
    else skeleton_scan text len rest (index + 1)

/-- The macro `COMPLETION_SKELETON(array, nb_elements)` as the body of a
generator called with `text` and `state`; `nb_elements` is the number of
slots of `array`. -/
def COMPLETION_SKELETON (array : List CStr) (text : CStr) (state : Int) (st : GenState) :
    Option CStr × GenState :=
  let st1 : GenState := if state = 0 then { len := text.length, index := 0 } else st
  let r := skeleton_scan text st1.len (array.drop st1.index) st1.index
  (r.1, { st1 with index := r.2 })

/-- The function `jsh_built_in_generator`. -/
def jsh_built_in_generator (text : CStr) (state : Int) (st : GenState) :
    Option CStr × GenState :=
  COMPLETION_SKELETON built_ins text state st

/-- The statics of `jsh_alias_generator`: the cached key array and the
skeleton's `len` and `index`. -/
structure AliasGenState where
  alias_keys : List CStr
  skel : GenState
  deriving DecidableEq, Repr

/-- The function `jsh_alias_generator`; `get_all_alias_keys` is what the alias
store returns for the call of that name. -/
def jsh_alias_generator (get_all_alias_keys : List CStr) (text : CStr) (state : Int)
    (st : AliasGenState) : Option CStr × AliasGenState :=
  let keys := if state = 0 then get_all_alias_keys else st.alias_keys
  let r := COMPLETION_SKELETON keys text state st.skel
  (r.1, { alias_keys := keys, skel := r.2 })

/-- The function `jsh_widely_used_cmds_generator`. -/
def jsh_widely_used_cmds_generator (text : CStr) (state : Int) (st : GenState) :
    Option CStr × GenState :=
  COMPLETION_SKELETON widely_used_cmds text state st

/-- The table `git_cmds[]` of `git_completion_generator`. -/
def git_cmds : List CStr :=
  ["add".toList, "bisect".toList, "branch".toList, "checkout".toList, "clone".toList,
   "commit".toList, "diff".toList, "fetch".toList, "grep".toList, "init".toList,
   "log".toList, "merge".toList, "mv".toList, "pull".toList, "push".toList,
   "rebase".toList, "reset".toList, "rm".toList, "show".toList, "status".toList,
   "tag".toList]

/-- The function `git_completion_generator`. -/
def git_completion_generator (text : CStr) (state : Int) (st : GenState) :
    Option CStr × GenState :=
  COMPLETION_SKELETON git_cmds text state st

/-- The function `debug_completion_generator`. -/
def debug_completion_generator (text : CStr) (state : Int) (st : GenState) :
    Option CStr × GenState :=
  COMPLETION_SKELETON ["on".toList, "off".toList] text state st

/-- The function `jsh_options_generator`. -/
def jsh_options_generator (text : CStr) (state : Int) (st : GenState) :
    Option CStr × GenState :=
  COMPLETION_SKELETON
    ["--nodebug".toList, "--debug".toList, "--color".toList, "--nocolor".toList,
     "--norc".toList, "--license".toList, "--version".toList, "--help".toList] text state st

/-- The function `apt_compl_generator`. -/
def apt_compl_generator (text : CStr) (state : Int) (st : GenState) :
    Option CStr × GenState :=
  COMPLETION_SKELETON
    ["list".toList, "search".toList, "show".toList, "install".toList, "remove".toList,
     "edit-sources".toList, "update".toList, "upgrade".toList, "full-upgrade".toList]
    text state st

def MAX_NB_BRANCHES : Nat := 100

/-- The inner `while (true)` loop of `git_branch_completion_generator`: reads one
line of the stream, dropping blanks and asterisks; returns the name, the
rest of the stream and the flag `done` (end of file reached). -/
def read_branch_line : CStr → CStr → CStr × CStr × Bool
  | [], cur => (cur, [], true)
  | c :: rest, cur =>
    if c = '\n' then (cur, rest, false)
    else if c ≠ ' ' ∧ c ≠ '*' then read_branch_line rest (cur ++ [c])
    else read_branch_line rest cur

/-- The `for` loop of `git_branch_completion_generator` that fills `branches`,
with `n` iterations left; names are taken to fit `MAX_BRANCH_NAME_LEN`. -/
def read_branches : Nat → CStr → List CStr
  | 0, _ => []
  | n + 1, stream =>
    match read_branch_line stream [] with
    | (cur, rest, done) => cur :: (if done then [] else read_branches n rest)

/-- The statics of `git_branch_completion_generator`. -/
structure BranchGenState where
  branches : List CStr
  skel : GenState
  deriving DecidableEq, Repr

/-- The function `git_branch_completion_generator`; `git_branch_stdout` is the
output of the command `git branch --no-color`. -/
def git_branch_completion_generator (git_branch_stdout : CStr) (text : CStr) (state : Int)
    (st : BranchGenState) : Option CStr × BranchGenState :=
  let branches :=
    if state = 0 then read_branches MAX_NB_BRANCHES git_branch_stdout else st.branches
  let r := COMPLETION_SKELETON branches text state st.skel
  (r.1, { branches := branches, skel := r.2 })

/-- The loop of readline's `rl_completion_matches`: the generator is called with
`state` equal to the number of matches found so far, until it returns NULL. -/
def rl_completion_loop {σ : Type} (gen : Int → σ → Option CStr × σ) :
    Nat → List CStr → σ → List CStr
  | 0, found, _ => found
  | fuel + 1, found, st =>
    match gen (found.length : Int) st with
    | (some m, st1) => rl_completion_loop gen fuel (found ++ [m]) st1
    | (none, _) => found

/-- The function `rl_completion_matches(text, generator)` of readline: NULL when
there is no match, else the matches in the order the generator gave them
(the slot 0 that readline fills with their common prefix is left out).
`fuel` bounds the number of generator calls. -/
def rl_completion_matches {σ : Type} (gen : Int → σ → Option CStr × σ) (fuel : Nat)
    (st : σ) : Option (List CStr) :=
  match rl_completion_loop gen fuel [] st with
  | [] => none
  | m :: ms => some (m :: ms)

/-- The macro `USR_ENTERED(cmd)` of `jsh_completion`. -/
def USR_ENTERED (rl_line_buffer : CStr) (start : Nat) (cmd : CStr) : Bool :=
  decide (start ≥ cmd.length + 1) &&
    decide (strncmp (rl_line_buffer.drop (start - cmd.length - 1)) cmd cmd.length = 0)

/-- What `jsh_completion` reads besides its arguments: readline's line buffer,
the answer of `is_valid_cmd` (parser), the keys of the alias store, the
status of the `git rev-parse` check run through `parseexpr`, the output of
`git branch`, and the statics the generators hold from earlier calls. -/
structure CompletionEnv where
  rl_line_buffer : CStr
  is_valid_cmd : Bool
  get_all_alias_keys : List CStr
  pwd_is_git_status : Int
  git_branch_stdout : CStr
  statics : GenState
  alias_statics : AliasGenState
  branch_statics : BranchGenState

/-- The function `jsh_completion(text, start, end)`.  Each generator is run with
one more call than its array has slots. -/
def jsh_completion (env : CompletionEnv) (text : CStr) (start : Nat) (_end : Nat) :
    Option (List CStr) :=
  if env.is_valid_cmd then
    match rl_completion_matches (jsh_built_in_generator text) (built_ins.length + 1)
        env.statics with
    | some r => some r
    | none =>
      match rl_completion_matches (jsh_alias_generator env.get_all_alias_keys text)
          (env.get_all_alias_keys.length + 1) env.alias_statics with
      | some r => some r
      | none =>
        rl_completion_matches (jsh_widely_used_cmds_generator text)
          (widely_used_cmds.length + 1) env.statics
  else if USR_ENTERED env.rl_line_buffer start "git".toList then
    rl_completion_matches (git_completion_generator text) (git_cmds.length + 1) env.statics
  else if USR_ENTERED env.rl_line_buffer start "git checkout".toList ||
      USR_ENTERED env.rl_line_buffer start "git branch".toList ||
      USR_ENTERED env.rl_line_buffer start "git merge".toList then
    if env.pwd_is_git_status = EXIT_SUCCESS then
      rl_completion_matches (git_branch_completion_generator env.git_branch_stdout text)
        (MAX_NB_BRANCHES + 1) env.branch_statics
    else none
  else if USR_ENTERED env.rl_line_buffer start "jsh".toList then
    rl_completion_matches (jsh_options_generator text) 9 env.statics
  else if USR_ENTERED env.rl_line_buffer start "debug".toList then
    rl_completion_matches (debug_completion_generator text) 3 env.statics
  else if USR_ENTERED env.rl_line_buffer start "apt".toList then
    rl_completion_matches (apt_compl_generator text) 10 env.statics
  else none

/-- The results of a run of calls of a generator, one call per entry of
`states`, each call starting from the statics the previous one left. -/
def generator_calls {σ : Type} (gen : Int → σ → Option CStr × σ) :
    List Int → σ → List (Option CStr)
  | [], _ => []
  | state :: states, st => (gen state st).1 :: generator_calls gen states (gen state st).2

/-- A sample completion request: the line buffer holds `e`, with the aliases
`e` and `ll` defined. -/
def sample_completion_env : CompletionEnv :=
  { rl_line_buffer := "e".toList, is_valid_cmd := true,
    get_all_alias_keys := ["e".toList, "ll".toList], pwd_is_git_status := 1,
    git_branch_stdout := [], statics := ⟨7, 3⟩,
    alias_statics := ⟨[], ⟨0, 0⟩⟩, branch_statics := ⟨[], ⟨0, 0⟩⟩ }

/-! ## main and the SIGINT handler -/

/-- How a call of the signal handler ends: it returns to the interrupted code,
or it leaves through `siglongjmp(ctrlc_buf, val)`. -/
inductive HandlerResult where
  | returns
  | siglongjmp (val : Int)
  deriving DecidableEq, Repr

/-- The function `sig_int_handler(signo)`: how it ends, and the globals after it. -/
def sig_int_handler (s : Session) (_signo : Int) : HandlerResult × Session :=
  if !s.WAITING_FOR_CHILD then (HandlerResult.siglongjmp 1, s)
  else (HandlerResult.returns, s)

/-- The value `sigsetjmp` returns when control arrives through
`siglongjmp(env, val)`. -/
def sigsetjmp_after_longjmp (val : Int) : Int := if val = 0 then 1 else val

/-- The `if (sigsetjmp(ctrlc_buf, 1) == 0)` statement of `main`: the value given
to `status`. -/
def main_status (sigsetjmp_rv : Int) : Int := if sigsetjmp_rv = 0 then 0 else -1

/-- Where control is in `main` once the handler is installed: inside the call
`readcmd(status)`, inside the call `parseexpr(s)`, or past `exit`. -/
inductive MainLoc where
  | in_readcmd (status : Int)
  | in_parseexpr (line : CStr)
  | exited (code : Int)
  deriving DecidableEq, Repr

/-- What can happen next: the pending call returns, `exit(code)` is called
inside it, or SIGINT is delivered. -/
inductive MainEvent where
  | readcmd_returns (line : Option CStr)
  | parseexpr_returns (status : Int)
  | exit_called (code : Int)
  | SIGINT (signo : Int)
  deriving DecidableEq, Repr

/-- The direct entry into the loop: `sigsetjmp` returns 0. -/
def main_start : MainLoc := MainLoc.in_readcmd (main_status 0)

/-- One step of `main` with the globals `s`: the `while` loop around `readcmd`
and `parseexpr`, and the delivery of SIGINT to `sig_int_handler`. -/
def main_step (s : Session) (loc : MainLoc) (ev : MainEvent) : MainLoc :=
  match loc, ev with
  | MainLoc.exited code, _ => MainLoc.exited code
  | _, MainEvent.exit_called code => MainLoc.exited code
  | MainLoc.in_readcmd _, MainEvent.readcmd_returns (some line) => MainLoc.in_parseexpr line
  | MainLoc.in_readcmd _, MainEvent.readcmd_returns none => MainLoc.exited EXIT_SUCCESS
  | MainLoc.in_parseexpr _, MainEvent.parseexpr_returns status => MainLoc.in_readcmd status
  | l, MainEvent.SIGINT signo =>
    match (sig_int_handler s signo).1 with
    | HandlerResult.returns => l
    | HandlerResult.siglongjmp val =>
      MainLoc.in_readcmd (main_status (sigsetjmp_after_longjmp val))
  | l, _ => l

/-- A sample environment: user `jo` on host `box` in `/home/jo/src/jsh`. -/
def sample_env : PromptEnv :=
  { USER := some "jo".toList, hostname := "box".toList,
    cwd := some "/home/jo/src/jsh".toList }

/-- A sample environment whose user name has 40 characters. -/
def long_user_env : PromptEnv :=
  { USER := some (List.replicate 40 'a'), hostname := "box".toList,
    cwd := some "/home/jo".toList }

/-- The sample environment with `USER` not set. -/
def no_user_env : PromptEnv :=
  { USER := none, hostname := "box".toList, cwd := some "/home/jo/src/jsh".toList }

/-! ## readcmd -/

/-- The collaborators of `readcmd`: `readline` of the line editor (NULL at end
of input), `history_expand` of the history library on the current history
list (its return value and the expansion it stores), and `resolvealiases`
of the alias store. -/
structure ReadEnv where
  readline : CStr → Option CStr
  history_expand : List CStr → CStr → Int × CStr
  resolvealiases : CStr → CStr

/-- What a call of `readcmd` leaves: the string returned (or NULL), the
globals, and the history list. -/
structure ReadResult where
  ret : Option CStr
  s : Session
  history : List CStr
  deriving DecidableEq, Repr

/-- The function `readcmd(status)`, on the history list `history`.  The counter
`nb_hist_entries` is a 32-bit `int`. -/
def readcmd (r : ReadEnv) (e : PromptEnv) (s : Session) (history : List CStr)
    (status : Int) : Option ReadResult :=
  match getprompt s e status with
  | none => none
  | some prompt =>
    match r.readline prompt with
    | none => some { ret := none, s := s, history := history }
    | some [] => some { ret := some [], s := s, history := history }
    | some (c :: cs) =>
      let hist_rv := (r.history_expand history (c :: cs)).1
      let expansion := (r.history_expand history (c :: cs)).2
      let buf := if hist_rv ≠ -1 then expansion else c :: cs
      some { ret := some (r.resolvealiases buf),
             s := { s with nb_hist_entries := to_int (s.nb_hist_entries + 1) },
             history := history ++ [buf] }

/-- Sample collaborators of `readcmd`: the user types `!!`, which the history
library expands to the last entry, and `ls` is an alias of `ls --color`. -/
def sample_read_env : ReadEnv :=
  { readline := fun _ => some "!!".toList,
    history_expand := fun h l =>
      if l = "!!".toList then
        (match h.getLast? with
          | some last => (1, last)
          | none => (-1, "!!: event not found".toList))
      else (0, l),
    resolvealiases := fun l => if l = "ls".toList then "ls --color".toList else l }

/-! # Theorems -/

/-! ## Prompt length -/

theorem prompt_cat_length (prompt next : CStr) (h : prompt.length ≤ MAX_PROMPT_LENGTH) :
    (prompt_cat prompt next).1.length ≤ MAX_PROMPT_LENGTH := by
  unfold prompt_cat
  split
  · exact h
  · simp only [List.length_append]; omega

theorem prompt_cat_false (prompt next p : CStr) (h : prompt_cat prompt next = (p, false)) :
    p = prompt := by
  unfold prompt_cat at h
  split at h <;> simp_all

theorem prompt_cat_eq (prompt next : CStr) (b : Bool) (p : CStr)
    (h : prompt_cat prompt next = (p, b)) : p = (prompt_cat prompt next).1 := by
  rw [h]

theorem getprompt_loop_length (e : PromptEnv) (M status : Int) :
    ∀ (n : Nat) (tmpl prompt p : CStr), tmpl.length ≤ n → prompt.length ≤ MAX_PROMPT_LENGTH →
      getprompt_loop e M status tmpl prompt = some p → p.length ≤ MAX_PROMPT_LENGTH := by
  intro n
  induction n with
  | zero =>
    intro tmpl prompt p hn hp h
    have : tmpl = [] := List.length_eq_zero.mp (Nat.le_zero.mp hn)
    subst this
    simp only [getprompt_loop, Option.some.injEq] at h
    subst h; exact hp
  | succ n ih =>
    intro tmpl prompt p hn hp h
    match tmpl, hn, h with
    | [], _, h =>
      simp only [getprompt_loop, Option.some.injEq] at h
      subst h; exact hp
    | [c], _, h =>
      simp only [getprompt_loop] at h
      split at h <;> (simp only [Option.some.injEq] at h; subst h; exact prompt_cat_length _ _ hp)
    | c :: d :: rest, hn, h =>
      simp only [getprompt_loop] at h
      simp only [List.length_cons] at hn
      split at h
      · split at h
        next q hq =>
          refine ih (d :: rest) q p (by simp only [List.length_cons]; omega) ?_ h
          rw [prompt_cat_eq _ _ _ _ hq]; exact prompt_cat_length _ _ hp
        next q hq =>
          simp only [Option.some.injEq] at h
          subst h
          rw [prompt_cat_eq _ _ _ _ hq]; exact prompt_cat_length _ _ hp
      · split at h
        · exact absurd h (by simp)
        next next hnext =>
          split at h
          next q hq =>
            refine ih rest q p (by omega) ?_ h
            rw [prompt_cat_eq _ _ _ _ hq]; exact prompt_cat_length _ _ hp
          next q hq =>
            simp only [Option.some.injEq] at h
            subst h
            rw [prompt_cat_eq _ _ _ _ hq]; exact prompt_cat_length _ _ hp

theorem strchr_head (c : Char) (xs : CStr) : strchr (c :: xs) c = some (c :: xs) := by
  simp [strchr]

theorem prompt_dir_total (M : Int) (cwd : CStr) (hM : 0 ≤ M) (habs : cwd.head? = some '/') :
    ∃ d, prompt_dir M cwd = some d := by
  match cwd, habs with
  | c :: cs, habs =>
    simp only [List.head?_cons, Option.some.injEq] at habs
    subst habs
    unfold prompt_dir
    by_cases hlt : M < (('/' :: cs).length : Int)
    · simp only [hlt, if_true]
      have h1 : (0 : Int) ≤ (('/' :: cs).length : Int) - M ∧
          (('/' :: cs).length : Int) - M ≤ (('/' :: cs).length : Int) := by omega
      simp only [h1, and_self, if_true]
      split
      · exact ⟨_, rfl⟩
      · exact ⟨_, rfl⟩
    · simp only [hlt, if_false]
      simp [strchr_head]
      omega

theorem prompt_directive_percent (e : PromptEnv) (M status : Int) :
    prompt_directive e M status '%' = some ['%'] := by
  simp [prompt_directive]

theorem getprompt_loop_percent (e : PromptEnv) (M status : Int) :
    ∀ (n : Nat) (prompt : CStr), prompt.length ≤ MAX_PROMPT_LENGTH →
      getprompt_loop e M status (percent_template n) prompt =
        some (prompt ++ List.replicate (min n (MAX_PROMPT_LENGTH - prompt.length)) '%') := by
  intro n
  induction n with
  | zero => intro prompt _; simp [percent_template, getprompt_loop]
  | succ n ih =>
    intro prompt hp
    simp only [percent_template, getprompt_loop, prompt_directive_percent]
    simp only [ne_eq, not_true_eq_false, if_false]
    unfold prompt_cat
    by_cases hfull : prompt.length + ['%'].length > MAX_PROMPT_LENGTH
    · simp only [hfull, if_true]
      simp only [List.length_singleton] at hfull
      have : MAX_PROMPT_LENGTH - prompt.length = 0 := by omega
      simp [this]
    · simp only [hfull, if_false]
      simp only [List.length_singleton] at hfull
      rw [ih (prompt ++ ['%']) (by simp only [List.length_append, List.length_singleton]; omega)]
      have h2 : min (n + 1) (MAX_PROMPT_LENGTH - prompt.length) =
          min n (MAX_PROMPT_LENGTH - (prompt ++ ['%']).length) + 1 := by
        simp only [List.length_append, List.length_singleton]; omega
      rw [h2, List.replicate_succ]
      simp

/-- Every prompt that `getprompt` returns has length at most
`MAX_PROMPT_LENGTH`. -/
theorem getprompt_length_of_defined (s : Session) (e : PromptEnv) (status : Int) (p : CStr)
    (h : getprompt s e status = some p) : p.length ≤ MAX_PROMPT_LENGTH := by
  unfold getprompt at h
  split at h
  · simp only [Option.some.injEq] at h
    subst h; simp
  · exact getprompt_loop_length e _ status _ _ [] p (le_refl _) (by simp) h

/-- For the template made of `n` copies of `%%`, `getprompt` returns `min n 100`
percent signs. -/
theorem getprompt_percent_template (s : Session) (e : PromptEnv) (status : Int) (n : Nat)
    (hi : s.IS_INTERACTIVE = true) (ht : s.user_prompt_string = percent_template n) :
    getprompt s e status = some (List.replicate (min n MAX_PROMPT_LENGTH) '%') := by
  unfold getprompt
  rw [hi, ht]
  simp only [Bool.not_true, Bool.false_eq_true, if_false]
  rw [getprompt_loop_percent e _ status n [] (by simp)]
  simp

/-- C1 fails on the code: with the default template, which contains `%h`, the
length check reads `next` after the lifetime of the array `hostname` has
ended, so `getprompt` has no defined result and nothing bounds what `strcat`
copies; the same holds for the template `%u` when `USER` is not set, where
`strlen` reads through a NULL pointer. -/
theorem getprompt_default_template_undefined :
    (Session.initial true).user_prompt_string = "%u@%h[%s]:%d$ ".toList ∧
    prompt_directive sample_env 25 0 'h' = none ∧
    getprompt (Session.initial true) sample_env 0 = none ∧
    getprompt { Session.initial true with user_prompt_string := "%u".toList }
      no_user_env 0 = none := by
  decide

/-! ## Directory truncation -/

theorem strchr_some (c : Char) : ∀ (s t : CStr), strchr s c = some t →
    t <:+ s ∧ t.head? = some c := by
  intro s
  induction s with
  | nil => intro t h; simp [strchr] at h
  | cons x xs ih =>
    intro t h
    unfold strchr at h
    split at h
    next hx =>
      simp only [Option.some.injEq] at h
      subst h; subst hx
      exact ⟨List.suffix_refl _, rfl⟩
    next hx =>
      obtain ⟨h1, h2⟩ := ih t h
      exact ⟨h1.trans (List.suffix_cons x xs), h2⟩

theorem strchr_none (c : Char) : ∀ (s : CStr), strchr s c = none → c ∉ s := by
  intro s
  induction s with
  | nil => intro _; simp
  | cons x xs ih =>
    intro h
    unfold strchr at h
    split at h
    · simp at h
    next hx =>
      simp only [List.mem_cons, not_or]
      exact ⟨fun hc => hx hc.symm, ih h⟩

/-- C2, as the claim states it, fails: with the working directory `/home/jo`
and the bound 1 the `%d` text is `o`, which is neither the full path nor a
suffix that starts with the separator. -/
theorem prompt_dir_starts_mid_component :
    prompt_dir 1 "/home/jo".toList = some "o".toList ∧
      "o".toList ≠ "/home/jo".toList ∧ "o".toList.head? ≠ some '/' := by
  decide

/-- C2, amended: for an absolute working directory and a bound `M ≥ 0`, the
`%d` text is a suffix of the path, and it is the full path, or it starts with
the separator, or it has no separator at all and is exactly the last `M`
characters of the path. -/
theorem prompt_dir_suffix_anchor (M : Int) (cwd : CStr) (hM : 0 ≤ M)
    (habs : cwd.head? = some '/') :
    ∃ d, prompt_dir M cwd = some d ∧ d <:+ cwd ∧
      (d = cwd ∨ d.head? = some '/' ∨ ('/' ∉ d ∧ (d.length : Int) = M)) := by
  unfold prompt_dir
  by_cases hlt : M < (cwd.length : Int)
  · simp only [hlt, if_true]
    have h1 : (0 : Int) ≤ (cwd.length : Int) - M ∧
        (cwd.length : Int) - M ≤ (cwd.length : Int) := by omega
    simp only [h1, and_self, if_true]
    split
    next ptr hptr =>
      obtain ⟨hs, hh⟩ := strchr_some '/' _ _ hptr
      exact ⟨ptr, rfl, hs.trans (List.drop_suffix _ _), Or.inr (Or.inl hh)⟩
    next hnone =>
      refine ⟨_, rfl, List.drop_suffix _ _, Or.inr (Or.inr ⟨strchr_none '/' _ hnone, ?_⟩)⟩
      simp only [List.length_drop]
      omega
  · simp only [hlt, if_false]
    match cwd, habs with
    | c :: cs, habs =>
      simp only [List.head?_cons, Option.some.injEq] at habs
      subst habs
      refine ⟨'/' :: cs, ?_, List.suffix_refl _, Or.inl rfl⟩
      simp [strchr_head]
      omega

/-- C2, amended, at `/usr/local/share` with the bound 9: the text is `/share`. -/
theorem prompt_dir_suffix_anchor_witness :
    prompt_dir 9 "/usr/local/share".toList = some "/share".toList ∧
    ∃ d, prompt_dir 9 "/usr/local/share".toList = some d ∧ d <:+ "/usr/local/share".toList ∧
      (d = "/usr/local/share".toList ∨ d.head? = some '/' ∨ ('/' ∉ d ∧ (d.length : Int) = 9)) :=
  ⟨by decide, prompt_dir_suffix_anchor 9 "/usr/local/share".toList (by decide) (by decide)⟩

/-! ## Rendering stops at the first segment that does not fit -/

theorem snprintf_c_eq (c : Char) : snprintf_c MAX_STATUS_LENGTH c = [c] := by
  simp [snprintf_c, MAX_STATUS_LENGTH]

/-- One loop iteration with segment `x` followed by the segments `xs`: if the
rest of the loop renders a maximal run of `xs`, the whole renders a maximal
run of `x :: xs`. -/
theorem prompt_step_maximal (prompt x : CStr) (xs : List CStr) (res : CStr → Option CStr)
    (hrest : prompt.length + x.length ≤ MAX_PROMPT_LENGTH →
      ∃ k, k ≤ xs.length ∧ res (prompt ++ x) = some ((prompt ++ x) ++ (xs.take k).flatten) ∧
        (prompt ++ x).length + (xs.take k).flatten.length ≤ MAX_PROMPT_LENGTH ∧
        ∀ j, j ≤ xs.length →
          (prompt ++ x).length + (xs.take j).flatten.length ≤ MAX_PROMPT_LENGTH → j ≤ k)
    (hp : prompt.length ≤ MAX_PROMPT_LENGTH) :
    ∃ k, k ≤ (x :: xs).length ∧
      (match prompt_cat prompt x with
        | (p, true) => res p
        | (p, false) => some p) = some (prompt ++ ((x :: xs).take k).flatten) ∧
      prompt.length + (((x :: xs).take k).flatten).length ≤ MAX_PROMPT_LENGTH ∧
      ∀ j, j ≤ (x :: xs).length →
        prompt.length + (((x :: xs).take j).flatten).length ≤ MAX_PROMPT_LENGTH → j ≤ k := by
  unfold prompt_cat
  by_cases hfit : prompt.length + x.length > MAX_PROMPT_LENGTH
  · simp only [hfit, if_true]
    refine ⟨0, Nat.zero_le _, by simp, by simpa using hp, ?_⟩
    intro j _ hj
    match j, hj with
    | 0, _ => exact le_refl _
    | j + 1, hj =>
      simp only [List.take_succ_cons, List.flatten_cons, List.length_append] at hj
      omega
  · simp only [hfit, if_false]
    obtain ⟨k, hk, hres, hlen, hmax⟩ := hrest (by omega)
    refine ⟨k + 1, by simpa using hk, ?_, ?_, ?_⟩
    · rw [hres]; simp
    · simp only [List.take_succ_cons, List.flatten_cons, List.length_append] at hlen ⊢
      omega
    · intro j hj hjl
      match j, hj, hjl with
      | 0, _, _ => exact Nat.zero_le _
      | j + 1, hj, hjl =>
        simp only [List.length_cons] at hj
        simp only [List.take_succ_cons, List.flatten_cons, List.length_append] at hjl
        have := hmax j (by omega) (by simp only [List.length_append]; omega)
        omega

theorem getprompt_loop_segments (e : PromptEnv) (M status : Int) :
    ∀ (n : Nat) (tmpl prompt : CStr) (segs : List CStr), tmpl.length ≤ n →
      prompt.length ≤ MAX_PROMPT_LENGTH → prompt_segments (prompt_directive e M status) tmpl = some segs →
      ∃ k, k ≤ segs.length ∧
        getprompt_loop e M status tmpl prompt = some (prompt ++ (segs.take k).flatten) ∧
        prompt.length + (segs.take k).flatten.length ≤ MAX_PROMPT_LENGTH ∧
        ∀ j, j ≤ segs.length →
          prompt.length + (segs.take j).flatten.length ≤ MAX_PROMPT_LENGTH → j ≤ k := by
  intro n
  induction n with
  | zero =>
    intro tmpl prompt segs hn hp hs
    have : tmpl = [] := List.length_eq_zero.mp (Nat.le_zero.mp hn)
    subst this
    simp only [prompt_segments, Option.some.injEq] at hs
    subst hs
    exact ⟨0, le_refl _, by simp [getprompt_loop], by simpa using hp, fun j hj _ => hj⟩
  | succ n ih =>
    intro tmpl prompt segs hn hp hs
    match tmpl, hn, hs with
    | [], _, hs =>
      simp only [prompt_segments, Option.some.injEq] at hs
      subst hs
      exact ⟨0, le_refl _, by simp [getprompt_loop], by simpa using hp, fun j hj _ => hj⟩
    | [c], _, hs =>
      simp only [prompt_segments] at hs
      simp only [getprompt_loop, snprintf_c_eq]
      by_cases hc : c = '%'
      · simp only [hc, if_true, Option.some.injEq] at hs
        subst hs
        have h := prompt_step_maximal prompt [] [] (fun p => some p)
          (fun _ => ⟨0, le_refl _, by simp, by simpa using hp, fun j hj _ => hj⟩) hp
        obtain ⟨k, hk, hres, hrest⟩ := h
        refine ⟨k, hk, ?_, hrest⟩
        rw [← hres]
        simp only [hc, ne_eq, not_true_eq_false, if_false]
        unfold prompt_cat
        split <;> rfl
      · simp only [hc, if_false, Option.some.injEq] at hs
        subst hs
        have h := prompt_step_maximal prompt [c] [] (fun p => some p)
          (fun hfit => ⟨0, le_refl _, by simp, by simpa using hfit, fun j hj _ => hj⟩) hp
        obtain ⟨k, hk, hres, hrest⟩ := h
        refine ⟨k, hk, ?_, hrest⟩
        rw [← hres]
        simp only [ne_eq, hc, not_false_eq_true, if_true]
        unfold prompt_cat
        split <;> rfl
    | c :: d :: rest, hn, hs =>
      simp only [List.length_cons] at hn
      simp only [prompt_segments] at hs
      simp only [getprompt_loop, snprintf_c_eq]
      by_cases hc : c = '%'
      · simp only [hc, if_true] at hs
        simp only [hc, ne_eq, not_true_eq_false, if_false]
        split at hs
        next x xs hx hxs =>
          simp only [Option.some.injEq] at hs
          subst hs
          rw [hx]
          exact prompt_step_maximal prompt x xs
            (fun p => getprompt_loop e M status rest p)
            (fun hfit => ih rest (prompt ++ x) xs (by omega)
              (by simpa using hfit) hxs) hp
        · exact absurd hs (by simp)
      · simp only [hc, if_false] at hs
        simp only [ne_eq, hc, not_false_eq_true, if_true]
        split at hs
        next xs hxs =>
          simp only [Option.some.injEq] at hs
          subst hs
          exact prompt_step_maximal prompt [c] xs
            (fun p => getprompt_loop e M status (d :: rest) p)
            (fun hfit => ih (d :: rest) (prompt ++ [c]) xs
              (by simp only [List.length_cons]; omega) (by simpa using hfit) hxs) hp
        · exact absurd hs (by simp)

/-- In an interactive session, when the code has a defined expansion for every
directive of the template, `getprompt` returns the concatenation of the first
`k` segments, where `k` is the largest number of leading segments whose
concatenation has length at most `MAX_PROMPT_LENGTH`. -/
theorem getprompt_segments_of_defined (s : Session) (e : PromptEnv) (status : Int)
    (segs : List CStr) (hi : s.IS_INTERACTIVE = true)
    (hs : prompt_segments (prompt_directive e s.MAX_DIR_LENGTH status)
      s.user_prompt_string = some segs) :
    ∃ k, k ≤ segs.length ∧
      getprompt s e status = some (segs.take k).flatten ∧
      (segs.take k).flatten.length ≤ MAX_PROMPT_LENGTH ∧
      ∀ j, j ≤ segs.length → (segs.take j).flatten.length ≤ MAX_PROMPT_LENGTH → j ≤ k := by
  obtain ⟨k, hk, hres, hlen, hmax⟩ :=
    getprompt_loop_segments e s.MAX_DIR_LENGTH status _ s.user_prompt_string [] segs
      (le_refl _) (by simp) hs
  refine ⟨k, hk, ?_, by simpa using hlen, fun j hj hjl => hmax j hj (by simpa using hjl)⟩
  unfold getprompt
  rw [hi]
  simpa using hres

/-- The template `%u%u%u!%d` with a user name of 40 characters: the third
expansion does not fit, and the prompt is the first two. -/
theorem getprompt_segments_long_user :
    getprompt { Session.initial true with user_prompt_string := "%u%u%u!%d".toList }
        long_user_env 0 = some (List.replicate 80 'a') ∧
    ∃ k, k ≤ 5 ∧
      getprompt { Session.initial true with user_prompt_string := "%u%u%u!%d".toList }
        long_user_env 0 =
        some ([List.replicate 40 'a', List.replicate 40 'a', List.replicate 40 'a', ['!'],
          "/home/jo".toList].take k).flatten :=
  ⟨by decide,
    (getprompt_segments_of_defined
      { Session.initial true with user_prompt_string := "%u%u%u!%d".toList }
      long_user_env 0
      [List.replicate 40 'a', List.replicate 40 'a', List.replicate 40 'a', ['!'],
        "/home/jo".toList] rfl (by decide)).imp (fun _ h => ⟨h.1, h.2.1⟩)⟩

/-- C6 fails on the code: the segments of the template `%h!` on the host `box`
are `box` and `!`, both of which fit, but the code reads the expansion of `%h`
after the lifetime of the array `hostname` has ended, so `getprompt` has no
defined result: it is not the concatenation of any number of leading
segments. -/
theorem getprompt_host_segment_undefined :
    prompt_segments (spec_directive sample_env 25 0) "%h!".toList =
      some ["box".toList, "!".toList] ∧
    (["box".toList, "!".toList] : List CStr).flatten.length ≤ MAX_PROMPT_LENGTH ∧
    getprompt { Session.initial true with user_prompt_string := "%h!".toList }
      sample_env 0 = none ∧
    ∀ k, k ≤ 2 →
      getprompt { Session.initial true with user_prompt_string := "%h!".toList }
        sample_env 0 ≠ some ((["box".toList, "!".toList] : List CStr).take k).flatten := by
  refine ⟨by decide, by decide, by decide, ?_⟩
  intro k _
  have h : getprompt { Session.initial true with user_prompt_string := "%h!".toList }
      sample_env 0 = none := by decide
  rw [h]
  simp

/-! ## String comparison -/

theorem strcmp_self : ∀ a : CStr, strcmp a a = 0 := by
  intro a
  induction a with
  | nil => rfl
  | cons x xs ih => simp [strcmp, ih]

theorem strcmp_eq_zero : ∀ a b : CStr, strcmp a b = 0 → a = b := by
  intro a
  induction a with
  | nil =>
    intro b h
    cases b with
    | nil => rfl
    | cons y ys => simp [strcmp] at h
  | cons x xs ih =>
    intro b h
    cases b with
    | nil => simp [strcmp] at h
    | cons y ys =>
      unfold strcmp at h
      split at h
      next hxy => rw [hxy, ih ys h]
      next hxy => split at h <;> simp at h

theorem strcmp_eq_zero_iff (a b : CStr) : strcmp a b = 0 ↔ a = b :=
  ⟨strcmp_eq_zero a b, fun h => h ▸ strcmp_self a⟩

theorem strcmp_asymm : ∀ a b : CStr, strcmp a b < 0 → ¬ strcmp b a < 0 := by
  intro a
  induction a with
  | nil =>
    intro b h
    cases b with
    | nil => simp [strcmp] at h
    | cons y ys => simp [strcmp]
  | cons x xs ih =>
    intro b h
    cases b with
    | nil => simp [strcmp] at h
    | cons y ys =>
      unfold strcmp at h ⊢
      by_cases hxy : x = y
      · subst hxy
        simp only [if_true] at h ⊢
        exact ih ys h
      · have hyx : ¬ y = x := fun h' => hxy h'.symm
        simp only [hxy, hyx, if_false] at h ⊢
        by_cases hlt : x.toNat < y.toNat
        · have : ¬ y.toNat < x.toNat := by omega
          simp [this]
        · simp [hlt] at h

/-! ## Built-in dispatch -/

/-- C3, as the claim states it, fails: `T` with one extra argument, which is
outside its accepted set, returns `EXIT_SUCCESS`. -/
theorem parse_built_in_true_extra_argument :
    accepted_argc built_in.T ((comd.mk ["T".toList, "x".toList]).length - 1) = false ∧
    parse_built_in sample_externals (Session.initial true) ⟨["T".toList, "x".toList]⟩
      built_in.T.toInt = Outcome.returned EXIT_SUCCESS (Session.initial true) ∧
    EXIT_SUCCESS ≠ EXIT_FAILURE := by
  decide

/-- C3, amended: for every built-in other than empty, true and exit, a record
whose number of extra arguments is outside the accepted set makes
`parse_built_in` return `EXIT_FAILURE` with every global unchanged; empty and
true return `EXIT_SUCCESS` with every global unchanged, and exit terminates
the process, whatever the number of arguments. -/
theorem parse_built_in_arity (x : Externals) (s : Session) (c : comd) (b : built_in)
    (h : accepted_argc b (c.length - 1) = false) :
    (b ≠ built_in.EMPTY → b ≠ built_in.T → b ≠ built_in.EXIT →
      parse_built_in x s c b.toInt = Outcome.returned EXIT_FAILURE s) ∧
    (b = built_in.EMPTY ∨ b = built_in.T →
      parse_built_in x s c b.toInt = Outcome.returned EXIT_SUCCESS s) ∧
    (b = built_in.EXIT → parse_built_in x s c b.toInt = Outcome.exited EXIT_SUCCESS) := by
  refine ⟨?_, ?_, ?_⟩
  · intro h1 h2 h3
    cases b <;>
      simp only [accepted_argc, decide_eq_false_iff_not, Bool.or_eq_false_iff, ne_eq,
        not_true_eq_false, not_false_eq_true, Bool.true_eq_false] at h h1 h2 h3 <;>
      simp only [parse_built_in, built_in.toInt, built_in.ofInt, TOGGLE_VAR, CHK_ARGC] <;>
      simp <;> (try intro hc) <;> (try split_ifs) <;>
      first | rfl | omega
  · intro hb
    rcases hb with hb | hb <;> subst hb <;>
      simp [parse_built_in, built_in.toInt, built_in.ofInt]
  · intro hb
    subst hb
    simp [parse_built_in, built_in.toInt, built_in.ofInt]

/-- C3, amended, at `history` with one extra argument. -/
theorem parse_built_in_arity_witness :
    parse_built_in sample_externals (Session.initial true)
      ⟨["history".toList, "5".toList]⟩ built_in.HIST.toInt =
      Outcome.returned EXIT_FAILURE (Session.initial true) :=
  (parse_built_in_arity sample_externals (Session.initial true)
    ⟨["history".toList, "5".toList]⟩ built_in.HIST (by decide)).1
    (by decide) (by decide) (by decide)

theorem digits_value_no_digit (c : Char) (cs : CStr) (h : isdigit c = false) :
    digits_value (c :: cs) 0 = 0 := by
  simp [digits_value, h]

theorem strtol_no_number (n : CStr)
    (h : ∀ c, n.head? = some c → isspace c = false ∧ isdigit c = false ∧ c ≠ '-' ∧ c ≠ '+') :
    strtol n = 0 := by
  cases n with
  | nil => simp [strtol]
  | cons c cs =>
    obtain ⟨h1, h2, h3, h4⟩ := h c rfl
    unfold strtol
    simp only [List.dropWhile_cons, h1, Bool.false_eq_true, if_false, h3, h4]
    rw [digits_value_no_digit c cs h2]
    decide

/-- C4, as the claim states it, fails: with the second argument `-5` the number
parsed is -5, and `MAX_DIR_LENGTH` becomes 5. -/
theorem parse_built_in_prompt_negative_bound :
    atoi "-5".toList = -5 ∧
    parse_built_in sample_externals (Session.initial true)
      ⟨["prompt".toList, "$ ".toList, "-5".toList]⟩ built_in.PROMPT.toInt =
      Outcome.returned EXIT_SUCCESS
        { Session.initial true with
          MAX_DIR_LENGTH := 5, prompt_init := false, user_prompt_string := "$ ".toList } ∧
    (5 : Int) ≠ atoi "-5".toList := by
  decide

/-- C4, amended: for every record `["prompt", t, n]`, `parse_built_in` returns
success, makes `t` the template and sets `MAX_DIR_LENGTH` to the 32-bit
absolute value of `atoi(n)`, which is 0 when `n` is empty or starts with a
character that is neither white space, a sign nor a digit; for every record
`["prompt", t]` it returns success, makes `t` the template and leaves
`MAX_DIR_LENGTH` as it was. -/
theorem parse_built_in_prompt (x : Externals) (s : Session) (t n : CStr) :
    parse_built_in x s ⟨["prompt".toList, t, n]⟩ built_in.PROMPT.toInt =
      Outcome.returned EXIT_SUCCESS
        { s with MAX_DIR_LENGTH := abs_int (atoi n), prompt_init := false,
                 user_prompt_string := t } ∧
    ((∀ c, n.head? = some c → isspace c = false ∧ isdigit c = false ∧ c ≠ '-' ∧ c ≠ '+') →
      abs_int (atoi n) = 0) ∧
    parse_built_in x s ⟨["prompt".toList, t]⟩ built_in.PROMPT.toInt =
      Outcome.returned EXIT_SUCCESS { s with prompt_init := false, user_prompt_string := t } ∧
    ({ s with prompt_init := false, user_prompt_string := t } : Session).MAX_DIR_LENGTH =
      s.MAX_DIR_LENGTH := by
  refine ⟨?_, ?_, ?_, rfl⟩
  · simp [parse_built_in, built_in.toInt, built_in.ofInt, comd.length, comd.arg]
  · intro h
    unfold atoi
    rw [strtol_no_number n h]
    decide
  · simp [parse_built_in, built_in.toInt, built_in.ofInt, comd.length, comd.arg, CHK_ARGC]

/-- C4, amended, at the records `prompt "%d> " 40` and `prompt "%d> " wide`. -/
theorem parse_built_in_prompt_witness :
    parse_built_in sample_externals (Session.initial true)
      ⟨["prompt".toList, "%d> ".toList, "40".toList]⟩ built_in.PROMPT.toInt =
      Outcome.returned EXIT_SUCCESS
        { Session.initial true with
          MAX_DIR_LENGTH := 40, prompt_init := false, user_prompt_string := "%d> ".toList } ∧
    abs_int (atoi "wide".toList) = 0 :=
  ⟨by decide,
   (parse_built_in_prompt sample_externals (Session.initial true) "%d> ".toList
      "wide".toList).2.1 (by decide)⟩

/-- C9: with exactly one extra argument, `color` (resp. `debug`) sets `COLOR`
(resp. `DEBUG`) to true for `on` and to false for `off` and returns success,
and for any other argument returns failure; every other global keeps its
value, and on failure every global does. -/
theorem parse_built_in_toggle (x : Externals) (s : Session) (name arg : CStr) :
    parse_built_in x s ⟨[name, arg]⟩ built_in.CLR.toInt =
      (if arg = "on".toList then Outcome.returned EXIT_SUCCESS { s with COLOR := true }
       else if arg = "off".toList then Outcome.returned EXIT_SUCCESS { s with COLOR := false }
       else Outcome.returned EXIT_FAILURE s) ∧
    parse_built_in x s ⟨[name, arg]⟩ built_in.DBG.toInt =
      (if arg = "on".toList then Outcome.returned EXIT_SUCCESS { s with DEBUG := true }
       else if arg = "off".toList then Outcome.returned EXIT_SUCCESS { s with DEBUG := false }
       else Outcome.returned EXIT_FAILURE s) := by
  constructor <;>
    simp [parse_built_in, built_in.toInt, built_in.ofInt, TOGGLE_VAR, CHK_ARGC, comd.length,
      comd.arg, strcmp_eq_zero_iff]

/-! ## Registry lookup -/

theorem built_ins_sorted : List.Pairwise (fun a b => string_cmp a b < 0) built_ins := by
  decide

theorem sorted_getD (base : List CStr)
    (hs : List.Pairwise (fun a b => string_cmp a b < 0) base) (i j : Nat) (hij : i < j)
    (hj : j < base.length) : string_cmp (base.getD i []) (base.getD j []) < 0 := by
  have hi : i < base.length := by omega
  rw [List.getD_eq_getElem _ _ hi, List.getD_eq_getElem _ _ hj]
  exact List.pairwise_iff_getElem.mp hs i j hi hj hij

/-- The search loop finds the key when it is in the sorted array, and reports
its absence otherwise, provided every slot equal to the key lies in `[l, u)`. -/
theorem bsearch_loop_spec (key : CStr) (base : List CStr)
    (hs : List.Pairwise (fun a b => string_cmp a b < 0) base) :
    ∀ (fuel l u : Nat), u - l ≤ fuel → u ≤ base.length →
      (∀ i, i < base.length → base.getD i [] = key → l ≤ i ∧ i < u) →
      (∃ i, bsearch_loop string_cmp key base fuel l u = some i ∧ i < base.length ∧
          base.getD i [] = key) ∨
      (bsearch_loop string_cmp key base fuel l u = none ∧
          ∀ i, i < base.length → base.getD i [] ≠ key) := by
  intro fuel
  induction fuel with
  | zero =>
    intro l u hf _ hin
    right
    refine ⟨rfl, fun i hi hk => ?_⟩
    have := hin i hi hk
    omega
  | succ fuel ih =>
    intro l u hf hu hin
    unfold bsearch_loop
    by_cases hlu : l < u
    · simp only [hlu, if_true]
      have hidx : (l + u) / 2 < base.length := by omega
      by_cases hneg : string_cmp key (base.getD ((l + u) / 2) []) < 0
      · simp only [hneg, if_true]
        refine ih l ((l + u) / 2) (by omega) (by omega) (fun i hi hk => ?_)
        have hb := hin i hi hk
        refine ⟨hb.1, ?_⟩
        by_contra hge
        rcases Nat.lt_or_ge ((l + u) / 2) i with hgt | hle
        · have h1 := sorted_getD base hs _ i hgt hi
          rw [hk] at h1
          exact strcmp_asymm _ _ hneg h1
        · have : i = (l + u) / 2 := by omega
          rw [← this, hk] at hneg
          have := strcmp_self key
          unfold string_cmp at hneg
          omega
      · simp only [hneg, if_false]
        by_cases hpos : string_cmp key (base.getD ((l + u) / 2) []) > 0
        · simp only [hpos, if_true]
          refine ih ((l + u) / 2 + 1) u (by omega) hu (fun i hi hk => ?_)
          have hb := hin i hi hk
          refine ⟨?_, hb.2⟩
          by_contra hlt
          rcases Nat.lt_or_ge i ((l + u) / 2) with hlt2 | hge
          · have h1 := sorted_getD base hs i _ hlt2 hidx
            rw [hk] at h1
            omega
          · have : i = (l + u) / 2 := by omega
            rw [← this, hk] at hpos
            have := strcmp_self key
            unfold string_cmp at hpos
            omega
        · simp only [hpos, if_false]
          left
          refine ⟨_, rfl, hidx, ?_⟩
          have h0 : strcmp key (base.getD ((l + u) / 2) []) = 0 := by
            unfold string_cmp at hneg hpos
            omega
          exact (strcmp_eq_zero _ _ h0).symm
    · simp only [hlu, if_false]
      right
      refine ⟨trivial, fun i hi hk => ?_⟩
      have := hin i hi hk
      omega

theorem getD_of_getElem? (base : List CStr) (i : Nat) (a : CStr) (h : base[i]? = some a) :
    i < base.length ∧ base.getD i [] = a := by
  obtain ⟨hi, ha⟩ := List.getElem?_eq_some.mp h
  exact ⟨hi, by rw [List.getD_eq_getElem _ _ hi]; exact ha⟩

theorem getElem?_of_getD (base : List CStr) (i : Nat) (a : CStr) (hi : i < base.length)
    (h : base.getD i [] = a) : base[i]? = some a := by
  rw [List.getD_eq_getElem _ _ hi] at h
  exact List.getElem?_eq_some.mpr ⟨hi, h⟩

/-- C5: `built_ins` is strictly ascending under byte-wise comparison;
`is_built_in` returns -1 exactly for the names that are not in the registry,
and otherwise the index of the slot that holds the name; for each of the 13
enumerators that index is the enumerator's value. -/
theorem is_built_in_lookup (name : CStr) (args : List CStr) :
    List.Pairwise (fun a b => string_cmp a b < 0) built_ins ∧
    (is_built_in ⟨name :: args⟩ = -1 ↔ name ∉ built_ins) ∧
    (is_built_in ⟨name :: args⟩ ≠ -1 →
      ∃ i : Nat, is_built_in ⟨name :: args⟩ = (i : Int) ∧ built_ins[i]? = some name) ∧
    (∀ b : built_in, is_built_in ⟨b.name :: args⟩ = b.toInt ∧
      built_ins[b.toInt.toNat]? = some b.name) := by
  have hspec := bsearch_loop_spec name built_ins built_ins_sorted nb_built_ins 0 nb_built_ins
    (by simp) (le_refl _) (fun i hi _ => ⟨Nat.zero_le _, hi⟩)
  have harg : (comd.mk (name :: args)).arg 0 = name := rfl
  refine ⟨built_ins_sorted, ?_, ?_, ?_⟩
  · unfold is_built_in bsearch
    rw [harg]
    rcases hspec with ⟨i, hres, hi, hk⟩ | ⟨hres, hno⟩
    · rw [hres]
      constructor
      · intro h
        simp only at h
        omega
      · intro hnot
        exact absurd (List.mem_iff_getElem?.mpr ⟨i, getElem?_of_getD _ _ _ hi hk⟩) hnot
    · rw [hres]
      refine ⟨fun _ hmem => ?_, fun _ => rfl⟩
      obtain ⟨i, hi⟩ := List.mem_iff_getElem?.mp hmem
      obtain ⟨hlt, hk⟩ := getD_of_getElem? _ _ _ hi
      exact hno i hlt hk
  · unfold is_built_in bsearch
    rw [harg]
    rcases hspec with ⟨i, hres, hi, hk⟩ | ⟨hres, hno⟩
    · rw [hres]
      intro _
      exact ⟨i, rfl, getElem?_of_getD _ _ _ hi hk⟩
    · rw [hres]
      intro h
      exact absurd rfl h
  · intro b
    cases b <;> exact ⟨rfl, rfl⟩

/-- C5 at the names `cd` and `ls`: `cd` is found at index 4, the value of `CD`,
and `ls` is not a built-in. -/
theorem is_built_in_lookup_witness :
    is_built_in ⟨["cd".toList, "/tmp".toList]⟩ = 4 ∧
    is_built_in ⟨["ls".toList, "-l".toList]⟩ = -1 ∧
    ∃ i : Nat, is_built_in ⟨["cd".toList, "/tmp".toList]⟩ = (i : Int) ∧
      built_ins[i]? = some "cd".toList :=
  ⟨by decide, by decide,
    (is_built_in_lookup "cd".toList ["/tmp".toList]).2.2.1 (by decide)⟩

/-! ## Completion generators -/

theorem strncmp_prefix_iff : ∀ (text a : CStr),
    strncmp a text text.length = 0 ↔ text <+: a := by
  intro text
  induction text with
  | nil => intro a; simp [strncmp]
  | cons t ts ih =>
    intro a
    cases a with
    | nil => simp [strncmp]
    | cons x xs =>
      simp only [List.length_cons, strncmp, List.cons_prefix_cons]
      by_cases hxt : x = t
      · subst hxt
        simp only [if_true, true_and]
        exact ih xs
      · have htx : ¬ t = x := fun h => hxt h.symm
        simp only [hxt, if_false, htx, false_and, iff_false]
        split <;> simp

theorem skeleton_scan_spec (text : CStr) (len : Nat) :
    ∀ (l : List CStr) (index : Nat),
      (skeleton_scan text len l index).1 =
        (l.filter (fun a => decide (strncmp a text len = 0))).head? ∧
      ∀ array : List CStr, array.drop index = l →
        (array.drop (skeleton_scan text len l index).2).filter
            (fun a => decide (strncmp a text len = 0)) =
          (l.filter (fun a => decide (strncmp a text len = 0))).tail := by
  intro l
  induction l with
  | nil =>
    intro index
    refine ⟨by simp [skeleton_scan], fun array h => ?_⟩
    simp [skeleton_scan, h]
  | cons a rest ih =>
    intro index
    have hdrop : ∀ array : List CStr, array.drop index = a :: rest →
        array.drop (index + 1) = rest := by
      intro array h
      rw [← List.tail_drop, h]
      rfl
    unfold skeleton_scan
    by_cases hp : strncmp a text len = 0
    · simp only [hp, if_true]
      refine ⟨by simp [hp], fun array h => ?_⟩
      rw [hdrop array h]
      simp [hp]
    · simp only [hp, if_false]
      obtain ⟨h1, h2⟩ := ih (index + 1)
      refine ⟨by rw [h1]; simp [hp], fun array h => ?_⟩
      rw [h2 array (hdrop array h)]
      simp [hp]

/-- One call of a skeleton generator: it returns the first remaining match and
leaves the statics at the rest of the matches. -/
theorem skeleton_call (array : List CStr) (text : CStr) (state : Int) (st : GenState)
    (h : state ≠ 0 → st.len = text.length) :
    (COMPLETION_SKELETON array text state st).1 =
      ((array.drop (if state = 0 then 0 else st.index)).filter
        (fun a => decide (text <+: a))).head? ∧
    (COMPLETION_SKELETON array text state st).2.len = text.length ∧
    (array.drop (COMPLETION_SKELETON array text state st).2.index).filter
        (fun a => decide (text <+: a)) =
      ((array.drop (if state = 0 then 0 else st.index)).filter
        (fun a => decide (text <+: a))).tail := by
  have hfun : (fun a : CStr => decide (text <+: a)) =
      (fun a => decide (strncmp a text text.length = 0)) := by
    funext a
    simp only [strncmp_prefix_iff]
  rw [hfun]
  unfold COMPLETION_SKELETON
  by_cases hz : state = 0
  · simp only [hz, if_true]
    obtain ⟨h1, h2⟩ := skeleton_scan_spec text text.length (array.drop 0) 0
    exact ⟨h1, trivial, h2 array rfl⟩
  · simp only [hz, if_false]
    rw [h hz]
    obtain ⟨h1, h2⟩ := skeleton_scan_spec text text.length (array.drop st.index) st.index
    exact ⟨h1, rfl, h2 array rfl⟩

theorem range_map_getElem?_cons (m : List CStr) (n : Nat) :
    (List.range (n + 1)).map (fun k => m[k]?) =
      m.head? :: (List.range n).map (fun k => m.tail[k]?) := by
  rw [List.range_succ_eq_map, List.map_cons, List.map_map]
  congr 1
  · exact (List.head?_eq_getElem? m).symm
  · apply List.map_congr_left
    intro k _
    simp

theorem generator_calls_nonzero (array : List CStr) (text : CStr) :
    ∀ (states : List Int) (st : GenState), (∀ x ∈ states, x ≠ 0) → st.len = text.length →
      generator_calls (COMPLETION_SKELETON array text) states st =
        (List.range states.length).map
          (fun k => ((array.drop st.index).filter (fun a => decide (text <+: a)))[k]?) := by
  intro states
  induction states with
  | nil => intro st _ _; simp [generator_calls]
  | cons x xs ih =>
    intro st hx hlen
    have hx0 : x ≠ 0 := hx x (List.mem_cons_self _ _)
    obtain ⟨h1, h2, h3⟩ := skeleton_call array text x st (fun _ => hlen)
    simp only [hx0, if_false] at h1 h3
    simp only [generator_calls, List.length_cons]
    rw [range_map_getElem?_cons, h1, ih _ (fun y hy => hx y (List.mem_cons_of_mem _ hy)) h2, h3]

/-- C7: a skeleton generator called once with `state = 0` and then with the
non-zero states `states` returns, at its `k`-th call, the `k`-th element of
the array that has `text` as a prefix, in array order, and NULL at every
call after the last such element. -/
theorem completion_skeleton_sequence (array : List CStr) (text : CStr) (states : List Int)
    (st : GenState) (h : ∀ x ∈ states, x ≠ 0) :
    generator_calls (COMPLETION_SKELETON array text) (0 :: states) st =
      (List.range (states.length + 1)).map
        (fun k => (array.filter (fun a => decide (text <+: a)))[k]?) := by
  obtain ⟨h1, h2, h3⟩ := skeleton_call array text 0 st (fun hne => absurd rfl hne)
  simp only [if_true, List.drop_zero] at h1 h3
  simp only [generator_calls]
  rw [range_map_getElem?_cons, h1, generator_calls_nonzero array text states _ h h2, h3]

/-- C7 at the widely-used commands and the text `k`: `kill`, `killall`, then NULL. -/
theorem completion_skeleton_sequence_witness :
    generator_calls (COMPLETION_SKELETON widely_used_cmds "k".toList) [0, 1, 2, 2, 5] ⟨9, 4⟩ =
      [some "kill".toList, some "killall".toList, none, none, none] ∧
    generator_calls (COMPLETION_SKELETON widely_used_cmds "k".toList) [0, 1, 2, 2, 5] ⟨9, 4⟩ =
      (List.range 5).map
        (fun k => (widely_used_cmds.filter (fun a => decide ("k".toList <+: a)))[k]?) :=
  ⟨by decide,
    completion_skeleton_sequence widely_used_cmds "k".toList [1, 2, 2, 5] ⟨9, 4⟩ (by decide)⟩

/-! ## Completion in command-name position -/

/-- The loop of `rl_completion_matches` collects what is left of the matches,
for a generator whose calls with a non-zero state hand out `rem` one by one. -/
theorem rl_completion_loop_spec {σ : Type} (gen : Int → σ → Option CStr × σ)
    (rem : σ → List CStr) (ok : σ → Prop)
    (hstep : ∀ state st, state ≠ 0 → ok st →
      (gen state st).1 = (rem st).head? ∧ ok (gen state st).2 ∧
        rem (gen state st).2 = (rem st).tail) :
    ∀ (fuel : Nat) (found : List CStr) (st : σ), found ≠ [] → ok st →
      (rem st).length < fuel → rl_completion_loop gen fuel found st = found ++ rem st := by
  intro fuel
  induction fuel with
  | zero => intro found st _ _ hlt; omega
  | succ fuel ih =>
    intro found st hne hok hlt
    have hlen : (found.length : Int) ≠ 0 := by
      have : found.length ≠ 0 := fun h => hne (List.length_eq_zero.mp h)
      omega
    obtain ⟨h1, h2, h3⟩ := hstep _ st hlen hok
    unfold rl_completion_loop
    rcases hg : gen (found.length : Int) st with ⟨r, st1⟩
    rw [hg] at h1 h2 h3
    simp only at h1 h2 h3
    cases hrem : rem st with
    | nil =>
      rw [hrem] at h1
      simp only [List.head?_nil] at h1
      subst h1
      simp
    | cons a t =>
      rw [hrem] at h1 h3
      simp only [List.head?_cons] at h1
      simp only [List.tail_cons] at h3
      subst h1
      simp only
      rw [ih (found ++ [a]) st1 (by simp) h2 (by rw [h3]; rw [hrem] at hlt; simpa using hlt), h3]
      simp

/-- The function `rl_completion_matches` returns all the matches `m` of a
generator whose first call hands out the head of `m` and whose later calls
hand out the rest, or NULL when `m` is empty. -/
theorem rl_completion_matches_spec {σ : Type} (gen : Int → σ → Option CStr × σ)
    (rem : σ → List CStr) (ok : σ → Prop) (m : List CStr) (fuel : Nat) (st : σ)
    (hfirst : (gen 0 st).1 = m.head? ∧ ok (gen 0 st).2 ∧ rem (gen 0 st).2 = m.tail)
    (hstep : ∀ state st, state ≠ 0 → ok st →
      (gen state st).1 = (rem st).head? ∧ ok (gen state st).2 ∧
        rem (gen state st).2 = (rem st).tail)
    (hfuel : m.length < fuel) :
    rl_completion_matches gen fuel st = if m = [] then none else some m := by
  obtain ⟨h1, h2, h3⟩ := hfirst
  unfold rl_completion_matches
  match fuel, hfuel with
  | fuel + 1, hfuel =>
    unfold rl_completion_loop
    simp only [List.length_nil, Nat.cast_zero]
    rcases hg : gen 0 st with ⟨r, st1⟩
    rw [hg] at h1 h2 h3
    simp only at h1 h2 h3
    cases m with
    | nil =>
      simp only [List.head?_nil] at h1
      subst h1
      simp
    | cons a t =>
      simp only [List.head?_cons] at h1
      simp only [List.tail_cons] at h3
      subst h1
      simp only [List.nil_append]
      rw [rl_completion_loop_spec gen rem ok hstep fuel [a] st1 (by simp) h2
        (by rw [h3]; simpa using hfuel), h3]
      simp

theorem filter_length_lt_succ (array : List CStr) (p : CStr → Bool) :
    (array.filter p).length < array.length + 1 :=
  Nat.lt_succ_of_le (List.length_filter_le p array)

/-- What `rl_completion_matches` returns for a skeleton generator. -/
theorem rl_completion_matches_skeleton (array : List CStr) (text : CStr) (st : GenState) :
    rl_completion_matches (COMPLETION_SKELETON array text) (array.length + 1) st =
      if array.filter (fun a => decide (text <+: a)) = [] then none
      else some (array.filter (fun a => decide (text <+: a))) := by
  refine rl_completion_matches_spec (COMPLETION_SKELETON array text)
    (fun st => (array.drop st.index).filter (fun a => decide (text <+: a)))
    (fun st => st.len = text.length) _ _ st ?_ ?_ (filter_length_lt_succ _ _)
  · have h := skeleton_call array text 0 st (fun hne => absurd rfl hne)
    simpa using h
  · intro state st1 hne hok
    have h := skeleton_call array text state st1 (fun _ => hok)
    simpa [hne] using h

/-- What `rl_completion_matches` returns for the alias generator. -/
theorem rl_completion_matches_alias (keys : List CStr) (text : CStr) (st : AliasGenState) :
    rl_completion_matches (jsh_alias_generator keys text) (keys.length + 1) st =
      if keys.filter (fun a => decide (text <+: a)) = [] then none
      else some (keys.filter (fun a => decide (text <+: a))) := by
  refine rl_completion_matches_spec (jsh_alias_generator keys text)
    (fun st => (keys.drop st.skel.index).filter (fun a => decide (text <+: a)))
    (fun st => st.alias_keys = keys ∧ st.skel.len = text.length) _ _ st ?_ ?_
    (filter_length_lt_succ _ _)
  · have h := skeleton_call keys text 0 st.skel (fun hne => absurd rfl hne)
    simp only [if_true, List.drop_zero] at h
    simp only [jsh_alias_generator, if_true]
    exact ⟨h.1, ⟨trivial, h.2.1⟩, h.2.2⟩
  · intro state st1 hne hok
    have h := skeleton_call keys text state st1.skel (fun _ => hok.2)
    simp only [hne, if_false] at h
    simp only [jsh_alias_generator, hne, if_false, hok.1]
    exact ⟨h.1, ⟨trivial, h.2.1⟩, h.2.2⟩

/-- C8: in command-name position `jsh_completion` offers the built-in names
that have `text` as a prefix when there is one; otherwise the alias keys that
have it as a prefix when there is one; otherwise the widely-used commands
that have it as a prefix, and NULL when there is none. -/
theorem jsh_completion_command_position (env : CompletionEnv) (text : CStr)
    (start end_pos : Nat) (hvalid : env.is_valid_cmd = true) :
    jsh_completion env text start end_pos =
      if built_ins.filter (fun a => decide (text <+: a)) ≠ [] then
        some (built_ins.filter (fun a => decide (text <+: a)))
      else if env.get_all_alias_keys.filter (fun a => decide (text <+: a)) ≠ [] then
        some (env.get_all_alias_keys.filter (fun a => decide (text <+: a)))
      else if widely_used_cmds.filter (fun a => decide (text <+: a)) ≠ [] then
        some (widely_used_cmds.filter (fun a => decide (text <+: a)))
      else none := by
  unfold jsh_completion
  simp only [hvalid, if_true]
  unfold jsh_built_in_generator jsh_widely_used_cmds_generator
  rw [rl_completion_matches_skeleton built_ins text env.statics,
    rl_completion_matches_alias env.get_all_alias_keys text env.alias_statics,
    rl_completion_matches_skeleton widely_used_cmds text env.statics]
  by_cases hb : built_ins.filter (fun a => decide (text <+: a)) = []
  · simp only [hb, if_true, ne_eq, not_true_eq_false, if_false]
    by_cases ha : env.get_all_alias_keys.filter (fun a => decide (text <+: a)) = []
    · simp only [ha, if_true, ne_eq, not_true_eq_false, if_false]
      by_cases hw : widely_used_cmds.filter (fun a => decide (text <+: a)) = []
      · simp [hw]
      · simp [hw]
    · simp [ha]
  · simp [hb]

/-- C8 at a request with the aliases `e` and `ll`: the text `l` matches no
built-in, and only the alias `ll` is offered, although `ls` and `links` are
widely-used commands. -/
theorem jsh_completion_command_position_witness :
    jsh_completion sample_completion_env "l".toList 0 1 = some ["ll".toList] :=
  (jsh_completion_command_position sample_completion_env "l".toList 0 1 rfl).trans
    (by decide)

/-! ## SIGINT -/

/-- C10: the handler leaves through `siglongjmp` exactly when
`WAITING_FOR_CHILD` is false; when it is true the handler returns with the
globals unchanged and `main` stays where it was; after the jump `main` is in
`readcmd` with status -1; and `status` is 0 at the recovery point only when
`sigsetjmp` returned 0, which is the direct entry and never a jump. -/
theorem sig_int_handler_recovery (s : Session) (signo : Int) (loc : MainLoc)
    (hrun : ∀ code, loc ≠ MainLoc.exited code) :
    ((∃ val, (sig_int_handler s signo).1 = HandlerResult.siglongjmp val) ↔
      s.WAITING_FOR_CHILD = false) ∧
    (s.WAITING_FOR_CHILD = true →
      sig_int_handler s signo = (HandlerResult.returns, s) ∧
      main_step s loc (MainEvent.SIGINT signo) = loc) ∧
    (s.WAITING_FOR_CHILD = false →
      main_step s loc (MainEvent.SIGINT signo) = MainLoc.in_readcmd (-1)) ∧
    main_start = MainLoc.in_readcmd 0 ∧
    (∀ rv, main_status rv = 0 ↔ rv = 0) ∧
    (∀ val, main_status (sigsetjmp_after_longjmp val) = -1) := by
  refine ⟨?_, ?_, ?_, rfl, ?_, ?_⟩
  · cases hw : s.WAITING_FOR_CHILD <;> simp [sig_int_handler, hw]
  · intro hw
    refine ⟨by simp [sig_int_handler, hw], ?_⟩
    cases loc with
    | exited code => exact absurd rfl (hrun code)
    | in_readcmd st => simp [main_step, sig_int_handler, hw]
    | in_parseexpr line => simp [main_step, sig_int_handler, hw]
  · intro hw
    cases loc with
    | exited code => exact absurd rfl (hrun code)
    | in_readcmd st =>
      simp [main_step, sig_int_handler, hw, main_status, sigsetjmp_after_longjmp]
    | in_parseexpr line =>
      simp [main_step, sig_int_handler, hw, main_status, sigsetjmp_after_longjmp]
  · intro rv
    unfold main_status
    split <;> simp_all
  · intro val
    unfold main_status sigsetjmp_after_longjmp
    split <;> simp_all

/-- C10 at a session that reads a line while no child runs: SIGINT restarts the
cycle with status -1. -/
theorem sig_int_handler_recovery_witness :
    main_step (Session.initial true) (MainLoc.in_readcmd 0) (MainEvent.SIGINT 2) =
      MainLoc.in_readcmd (-1) :=
  (sig_int_handler_recovery (Session.initial true) 2 (MainLoc.in_readcmd 0)
    (by simp)).2.2.1 rfl

/-! ## readcmd -/

theorem to_int_of_range (v : Int) (h1 : -2147483648 ≤ v) (h2 : v ≤ 2147483647) :
    to_int v = v := by
  unfold to_int
  rw [Int.emod_eq_of_lt (by omega) (by omega)]
  omega

/-- C11: with a defined prompt and the counter below `INT_MAX`, for a non-empty
line `readcmd` appends one history entry, the expansion when
`history_expand` does not fail and the line itself when it does, adds one to
`nb_hist_entries`, and returns the alias resolution of that entry; for an
empty line it changes nothing and returns the empty line; and it returns
NULL exactly when `readline` does. -/
theorem readcmd_records_line (r : ReadEnv) (e : PromptEnv) (s : Session)
    (history : List CStr) (status : Int) (prompt : CStr)
    (hp : getprompt s e status = some prompt)
    (hlo : -2147483648 ≤ s.nb_hist_entries) (hhi : s.nb_hist_entries < 2147483647) :
    (∀ line, line ≠ [] → r.readline prompt = some line →
      readcmd r e s history status =
        some { ret := some (r.resolvealiases
                 (if (r.history_expand history line).1 ≠ -1
                  then (r.history_expand history line).2 else line)),
               s := { s with nb_hist_entries := s.nb_hist_entries + 1 },
               history := history ++
                 [if (r.history_expand history line).1 ≠ -1
                  then (r.history_expand history line).2 else line] }) ∧
    (r.readline prompt = some [] →
      readcmd r e s history status = some { ret := some [], s := s, history := history }) ∧
    (∃ res, readcmd r e s history status = some res ∧
      (res.ret = none ↔ r.readline prompt = none)) := by
  refine ⟨?_, ?_, ?_⟩
  · intro line hne hl
    cases line with
    | nil => exact absurd rfl hne
    | cons c cs =>
      unfold readcmd
      rw [hp]
      simp only [hl]
      rw [to_int_of_range _ (by omega) (by omega)]
  · intro hl
    unfold readcmd
    rw [hp]
    simp only [hl]
  · unfold readcmd
    rw [hp]
    simp only
    cases hl : r.readline prompt with
    | none => exact ⟨_, rfl, by simp⟩
    | some line =>
      cases line with
      | nil => exact ⟨_, rfl, by simp⟩
      | cons c cs => exact ⟨_, rfl, by simp⟩

/-- C11 at the line `!!` with the history `ls`, in a session whose template is
`%u:%d$ `: the entry recorded is `ls`, and the line returned is its alias
resolution. -/
theorem readcmd_records_line_witness :
    readcmd sample_read_env sample_env
        { Session.initial true with user_prompt_string := "%u:%d$ ".toList }
        ["ls".toList] 0 =
      some { ret := some "ls --color".toList,
             s := { Session.initial true with
                    user_prompt_string := "%u:%d$ ".toList, nb_hist_entries := 1 },
             history := ["ls".toList, "ls".toList] } :=
  ((readcmd_records_line sample_read_env sample_env
      { Session.initial true with user_prompt_string := "%u:%d$ ".toList }
      ["ls".toList] 0 "jo:/home/jo/src/jsh$ ".toList (by decide) (by decide) (by decide)).1
    "!!".toList (by decide) rfl).trans (by decide)

/-! ## Documented bounds of the prompt -/

/-- C12 fails on the code: a template of 100 literal characters renders as a
prompt of length 100, which is not less than `MAX_PROMPT_LENGTH`. -/
theorem getprompt_reaches_max_length :
    getprompt { Session.initial true with user_prompt_string := List.replicate 100 'x' }
      sample_env 0 = some (List.replicate 100 'x') ∧
    ¬ (List.replicate 100 'x').length < MAX_PROMPT_LENGTH := by
  decide

/-- C13: for an absolute working directory and a bound `M ≥ 0`, the `%d` text is
a suffix of the path; it has length at most `M` when the path is longer than
`M`, and it is the whole path otherwise. -/
theorem prompt_dir_length_le (M : Int) (cwd : CStr) (hM : 0 ≤ M)
    (habs : cwd.head? = some '/') :
    ∃ d, prompt_dir M cwd = some d ∧ d <:+ cwd ∧
      (M < (cwd.length : Int) → (d.length : Int) ≤ M) ∧
      ((cwd.length : Int) ≤ M → d = cwd) := by
  unfold prompt_dir
  by_cases hlt : M < (cwd.length : Int)
  · simp only [hlt, if_true]
    have h1 : (0 : Int) ≤ (cwd.length : Int) - M ∧
        (cwd.length : Int) - M ≤ (cwd.length : Int) := by omega
    simp only [h1, and_self, if_true]
    have hwin : (((cwd.drop ((cwd.length : Int) - M).toNat).length : Nat) : Int) ≤ M := by
      simp only [List.length_drop]
      omega
    split
    next ptr hptr =>
      obtain ⟨hs, _⟩ := strchr_some '/' _ _ hptr
      refine ⟨ptr, rfl, hs.trans (List.drop_suffix _ _), fun _ => ?_, fun h => ?_⟩
      · have := hs.length_le
        omega
      · omega
    next hnone =>
      exact ⟨_, rfl, List.drop_suffix _ _, fun _ => hwin, fun h => by omega⟩
  · simp only [hlt, if_false]
    match cwd, habs with
    | c :: cs, habs =>
      simp only [List.head?_cons, Option.some.injEq] at habs
      subst habs
      refine ⟨'/' :: cs, ?_, List.suffix_refl _, fun h => h.elim, fun _ => rfl⟩
      simp [strchr_head]
      omega

/-- C13 at `/usr/local/share` with the bound 9: the text `/share` has length 6. -/
theorem prompt_dir_length_le_witness :
    prompt_dir 9 "/usr/local/share".toList = some "/share".toList ∧
    ∃ d, prompt_dir 9 "/usr/local/share".toList = some d ∧ d <:+ "/usr/local/share".toList ∧
      ((9 : Int) < ("/usr/local/share".toList.length : Int) → (d.length : Int) ≤ 9) ∧
      (("/usr/local/share".toList.length : Int) ≤ 9 → d = "/usr/local/share".toList) :=
  ⟨by decide, prompt_dir_length_le 9 "/usr/local/share".toList (by decide) (by decide)⟩

/-- C14 fails on the code: the status 1234567890 has 10 digits, and the `%s`
text is its first 9 digits. -/
theorem prompt_status_nine_digits :
    fmt_d 1234567890 = "1234567890".toList ∧
    prompt_directive sample_env 25 1234567890 's' = some "123456789".toList ∧
    getprompt { Session.initial true with user_prompt_string := "%s".toList }
      sample_env 1234567890 = some "123456789".toList := by
  decide

/-! ## Dispatch of a looked-up built-in -/

/-- A lookup that does not return -1 returns the index of a slot of `built_ins`
that holds the command name. -/
theorem is_built_in_found (c : comd) (h : is_built_in c ≠ -1) :
    ∃ i : Nat, i < built_ins.length ∧ is_built_in c = (i : Int) ∧
      built_ins.getD i [] = c.arg 0 := by
  have hspec := bsearch_loop_spec (c.arg 0) built_ins built_ins_sorted nb_built_ins 0
    nb_built_ins (by simp) (le_refl _) (fun i hi _ => ⟨Nat.zero_le _, hi⟩)
  unfold is_built_in bsearch at h ⊢
  rcases hspec with ⟨i, hres, hi, hk⟩ | ⟨hres, _⟩
  · rw [hres]
    exact ⟨i, hi, rfl, hk⟩
  · rw [hres] at h
    exact absurd rfl h

theorem built_in_ofInt_slot (i : Nat) (hi : i < 13) :
    ∃ b, built_in.ofInt (i : Int) = some b ∧ b.name = built_ins.getD i [] ∧
      b.toInt = (i : Int) := by
  interval_cases i
  · exact ⟨built_in.EMPTY, rfl, rfl, rfl⟩
  · exact ⟨built_in.F, rfl, rfl, rfl⟩
  · exact ⟨built_in.T, rfl, rfl, rfl⟩
  · exact ⟨built_in.ALIAS, rfl, rfl, rfl⟩
  · exact ⟨built_in.CD, rfl, rfl, rfl⟩
  · exact ⟨built_in.CLR, rfl, rfl, rfl⟩
  · exact ⟨built_in.DBG, rfl, rfl, rfl⟩
  · exact ⟨built_in.EXIT, rfl, rfl, rfl⟩
  · exact ⟨built_in.HIST, rfl, rfl, rfl⟩
  · exact ⟨built_in.PROMPT, rfl, rfl, rfl⟩
  · exact ⟨built_in.SHCAT, rfl, rfl, rfl⟩
  · exact ⟨built_in.SRC, rfl, rfl, rfl⟩
  · exact ⟨built_in.UNALIAS, rfl, rfl, rfl⟩

/-- Every case of the `switch` ends in a return of `EXIT_SUCCESS` or
`EXIT_FAILURE`, in `exit(EXIT_SUCCESS)` of the exit built-in, or in the end of
the process while a sourced file is run. -/
theorem parse_built_in_case (x : Externals) (s : Session) (c : comd) (index : Int)
    (b : built_in) (hb : built_in.ofInt index = some b)
    (halias : ∀ k v, x.alias_call k v = EXIT_SUCCESS ∨ x.alias_call k v = EXIT_FAILURE)
    (hunalias : ∀ k, x.unalias_call k = EXIT_SUCCESS ∨ x.unalias_call k = EXIT_FAILURE) :
    (∃ s1, parse_built_in x s c index = Outcome.returned EXIT_SUCCESS s1) ∨
    (∃ s1, parse_built_in x s c index = Outcome.returned EXIT_FAILURE s1) ∨
    (b = built_in.EXIT ∧ parse_built_in x s c index = Outcome.exited EXIT_SUCCESS) ∨
    (b = built_in.SRC ∧ ∃ code, x.parsefile (c.arg 1) s = Except.error code ∧
      parse_built_in x s c index = Outcome.exited code) := by
  unfold parse_built_in
  rw [hb]
  cases b
  case EMPTY => exact Or.inl ⟨_, rfl⟩
  case F => exact Or.inr (Or.inl ⟨_, rfl⟩)
  case T => exact Or.inl ⟨_, rfl⟩
  case ALIAS =>
    simp only
    split_ifs
    · exact Or.inl ⟨_, rfl⟩
    · exact Or.inr (Or.inl ⟨_, rfl⟩)
    · rcases halias (c.arg 1) (c.arg 2) with h | h <;> rw [h]
      · exact Or.inl ⟨_, rfl⟩
      · exact Or.inr (Or.inl ⟨_, rfl⟩)
  case CD =>
    simp only
    split_ifs
    · exact Or.inr (Or.inl ⟨_, rfl⟩)
    · exact Or.inl ⟨_, rfl⟩
    · exact Or.inr (Or.inl ⟨_, rfl⟩)
    · exact Or.inr (Or.inl ⟨_, rfl⟩)
    · exact Or.inl ⟨_, rfl⟩
  case CLR =>
    simp only [TOGGLE_VAR]
    split_ifs
    · exact Or.inr (Or.inl ⟨_, rfl⟩)
    · exact Or.inl ⟨_, rfl⟩
    · exact Or.inl ⟨_, rfl⟩
    · exact Or.inr (Or.inl ⟨_, rfl⟩)
  case DBG =>
    simp only [TOGGLE_VAR]
    split_ifs
    · exact Or.inr (Or.inl ⟨_, rfl⟩)
    · exact Or.inl ⟨_, rfl⟩
    · exact Or.inl ⟨_, rfl⟩
    · exact Or.inr (Or.inl ⟨_, rfl⟩)
  case EXIT => exact Or.inr (Or.inr (Or.inl ⟨rfl, rfl⟩))
  case HIST =>
    simp only
    split_ifs
    · exact Or.inr (Or.inl ⟨_, rfl⟩)
    · exact Or.inl ⟨_, rfl⟩
  case PROMPT =>
    simp only
    split_ifs
    · exact Or.inl ⟨_, rfl⟩
    · exact Or.inr (Or.inl ⟨_, rfl⟩)
    · exact Or.inl ⟨_, rfl⟩
  case SHCAT => exact Or.inl ⟨_, rfl⟩
  case SRC =>
    simp only
    split_ifs
    · exact Or.inr (Or.inl ⟨_, rfl⟩)
    · cases hpf : x.parsefile (c.arg 1) s with
      | ok s1 => exact Or.inl ⟨s1, rfl⟩
      | error code => exact Or.inr (Or.inr (Or.inr ⟨trivial, code, rfl, rfl⟩))
  case UNALIAS =>
    simp only
    split_ifs
    · exact Or.inr (Or.inl ⟨_, rfl⟩)
    · rcases hunalias (c.arg 1) with h | h <;> rw [h]
      · exact Or.inl ⟨_, rfl⟩
      · exact Or.inr (Or.inl ⟨_, rfl⟩)

/-- C15: when `is_built_in` returns an index other than -1 for a record, and
`alias` and `unalias` return `EXIT_SUCCESS` or `EXIT_FAILURE`, the slot of
`built_ins` at that index compares equal to the command name, the index is
the value of an enumerator with that name, so that the `default` branch is
not taken, and `parse_built_in` returns `EXIT_SUCCESS` or `EXIT_FAILURE`, or
the process ends in the exit built-in or while a sourced file is run. -/
theorem parse_built_in_dispatch (x : Externals) (s : Session) (c : comd)
    (halias : ∀ k v, x.alias_call k v = EXIT_SUCCESS ∨ x.alias_call k v = EXIT_FAILURE)
    (hunalias : ∀ k, x.unalias_call k = EXIT_SUCCESS ∨ x.unalias_call k = EXIT_FAILURE)
    (h : is_built_in c ≠ -1) :
    strcmp (c.arg 0) (built_ins.getD (is_built_in c).toNat []) = 0 ∧
    ∃ b, built_in.ofInt (is_built_in c) = some b ∧ b.name = c.arg 0 ∧
      b.toInt = is_built_in c ∧
      ((∃ s1, parse_built_in x s c (is_built_in c) = Outcome.returned EXIT_SUCCESS s1) ∨
       (∃ s1, parse_built_in x s c (is_built_in c) = Outcome.returned EXIT_FAILURE s1) ∨
       (b = built_in.EXIT ∧
         parse_built_in x s c (is_built_in c) = Outcome.exited EXIT_SUCCESS) ∨
       (b = built_in.SRC ∧ ∃ code, x.parsefile (c.arg 1) s = Except.error code ∧
         parse_built_in x s c (is_built_in c) = Outcome.exited code)) := by
  obtain ⟨i, hi, hres, hk⟩ := is_built_in_found c h
  obtain ⟨b, hb, hname, hval⟩ := built_in_ofInt_slot i hi
  rw [hres]
  refine ⟨?_, b, hb, hname.trans hk, hval, parse_built_in_case x s c _ b hb halias hunalias⟩
  rw [Int.toNat_ofNat, hk]
  exact strcmp_self _

/-- C15 at the record `debug off`: the lookup gives 6, the value of `DBG`, and
the call returns `EXIT_SUCCESS`. -/
theorem parse_built_in_dispatch_witness :
    is_built_in ⟨["debug".toList, "off".toList]⟩ = 6 ∧
    parse_built_in sample_externals (Session.initial true)
      ⟨["debug".toList, "off".toList]⟩ 6 =
      Outcome.returned EXIT_SUCCESS { Session.initial true with DEBUG := false } ∧
    strcmp ((comd.mk ["debug".toList, "off".toList]).arg 0)
      (built_ins.getD (is_built_in ⟨["debug".toList, "off".toList]⟩).toNat []) = 0 :=
  ⟨by decide, by decide,
    (parse_built_in_dispatch sample_externals (Session.initial true)
      ⟨["debug".toList, "off".toList]⟩ (fun _ _ => Or.inl rfl) (fun _ => Or.inl rfl)
      (by decide)).1⟩

/-! ## Sign of the directory bound -/

/-- C16 fails on the code: from the initial session, where `MAX_DIR_LENGTH` is 25,
the record `prompt "$ " -2147483648` is dispatched to `PROMPT` and leaves
`MAX_DIR_LENGTH` at -2147483648, the 32-bit result of `abs(INT_MIN)`. -/
theorem max_dir_length_negative :
    (Session.initial true).MAX_DIR_LENGTH = 25 ∧
    is_built_in ⟨["prompt".toList, "$ ".toList, "-2147483648".toList]⟩ =
      built_in.PROMPT.toInt ∧
    atoi "-2147483648".toList = -2147483648 ∧
    parse_built_in sample_externals (Session.initial true)
      ⟨["prompt".toList, "$ ".toList, "-2147483648".toList]⟩ built_in.PROMPT.toInt =
      Outcome.returned EXIT_SUCCESS
        { Session.initial true with
          MAX_DIR_LENGTH := -2147483648, prompt_init := false,
          user_prompt_string := "$ ".toList } ∧
    ¬ (0 : Int) ≤ -2147483648 := by
  decide

end Jsh
